import Mathlib

/-!
Verification of the slash-interaction pipeline of the slash.lat game.

The development shallowly embeds the relevant parts of the source:
* `src/slash.lat/src/effects/SlashTrail.ts` (trail tracker: point capture,
  duration cap, ring-buffer cap, fade-out rendering);
* the two `GameScene` revisions in the repository (pointer-move collision
  resolution with segment interpolation, broad phase, per-pixel narrow phase,
  bidirectional span search, and pointer-up damage resolution);
* `Target.takeDamage` / `Target.isDead` from `src/slash.lat/src/characters/Target.ts`.

Machine floating-point arithmetic is embedded into `ℚ`; the one
non-algebraic quantity, `Math.sqrt`-computed segment length, is passed as an
explicit parameter (`dist`) wherever the source computes it, with its defining
property supplied as a hypothesis where a theorem needs it.
-/

namespace SlashLat

/-! ### Constants (SlashTrail.ts lines 16-20, GameScene) -/

/-- `MAX_SLASH_DURATION = 350` (ms). -/
def MAX_SLASH_DURATION : ℚ := 350

/-- `MAX_TRAIL_POINTS = 60`. -/
def MAX_TRAIL_POINTS : ℕ := 60

/-- `TRAIL_FADE_TIME = 100` (ms) — the fade delay after `endDrawing`. -/
def TRAIL_FADE_TIME : ℚ := 100

/-- `TRAIL_FADE_DURATION = 150` (ms). -/
def TRAIL_FADE_DURATION : ℚ := 150

/-- `MIN_POINT_DISTANCE = 4` (px, density-scaled at use site). -/
def MIN_POINT_DISTANCE : ℚ := 4

/-! ### Trail tracker state (SlashTrail.ts) -/

/-- A captured trail point `{x, y, time, alpha}`. -/
structure TrailPoint where
  x : ℚ
  y : ℚ
  time : ℚ
  alpha : ℚ
deriving DecidableEq, Repr

instance : Inhabited TrailPoint := ⟨⟨0, 0, 0, 1⟩⟩

/-- The mutable fields of `SlashTrail` relevant to capture and fade.
The spline cache (`cachedSplinePoints`, `lastTrailPointsLength`) is a pure
memo of `generateSplinePoints` and is not part of the observable state. -/
structure SlashTrailState where
  trailPoints : List TrailPoint
  isDrawing : Bool
  drawingStartTime : ℚ
  drawingEndTime : ℚ
deriving DecidableEq, Repr

/-- The state set up by the `SlashTrail` constructor. -/
def initialTrailState : SlashTrailState := ⟨[], false, 0, 0⟩

/-- `endDrawing()` (SlashTrail.ts lines 85-88). -/
def endDrawing (now : ℚ) (st : SlashTrailState) : SlashTrailState :=
  { st with isDrawing := false, drawingEndTime := now }

/-- The "skip close points" test of `addTrailPoint` (lines 55-62):
the squared distance from the last recorded point is below
`(MIN_POINT_DISTANCE * dpr)^2`. -/
def skipClose (dpr x y : ℚ) (pts : List TrailPoint) : Bool :=
  match pts.getLast? with
  | none => false
  | some last =>
      decide ((x - last.x) * (x - last.x) + (y - last.y) * (y - last.y)
        < (MIN_POINT_DISTANCE * dpr) * (MIN_POINT_DISTANCE * dpr))

/-- `addTrailPoint(x, y, force)` (SlashTrail.ts lines 45-83).
Returns the new state together with the boolean the method returns.
The list head is the oldest point (`push` appends, `shift` drops the head). -/
def addTrailPoint (dpr now x y : ℚ) (force : Bool) (st : SlashTrailState) :
    SlashTrailState × Bool :=
  if MAX_SLASH_DURATION ≤ now - st.drawingStartTime then
    (endDrawing now st, false)
  else if !force && skipClose dpr x y st.trailPoints then
    (st, true)
  else
    let pts := st.trailPoints ++ [⟨x, y, now, 1⟩]
    let pts' := if MAX_TRAIL_POINTS ≤ pts.length then pts.tail else pts
    ({ st with trailPoints := pts' }, true)

/-- `startDrawing(x, y)` (SlashTrail.ts lines 35-43). -/
def startDrawing (dpr now x y : ℚ) (st : SlashTrailState) : SlashTrailState :=
  (addTrailPoint dpr now x y true
    { st with
      isDrawing := true
      drawingStartTime := now
      drawingEndTime := 0
      trailPoints := [] }).1

/-- One public call into the trail tracker. -/
inductive TrailOp where
  | start (now x y : ℚ)
  | move (now x y : ℚ)
  | finish (now : ℚ)

/-- Dispatch one call (the `move` case is `addTrailPoint` with `force = false`,
as invoked from `onPointerMove`). -/
def applyOp (dpr : ℚ) (st : SlashTrailState) : TrailOp → SlashTrailState
  | .start now x y => startDrawing dpr now x y st
  | .move now x y => (addTrailPoint dpr now x y false st).1
  | .finish now => endDrawing now st

/-- A call sequence against the trail tracker. -/
def runOps (dpr : ℚ) (st : SlashTrailState) (ops : List TrailOp) : SlashTrailState :=
  ops.foldl (applyOp dpr) st

/-- A run of `addTrailPoint` calls (each `(now, x, y)`), recording each
returned boolean. -/
def addRun (dpr : ℚ) (st : SlashTrailState) :
    List (ℚ × ℚ × ℚ) → SlashTrailState × List Bool
  | [] => (st, [])
  | (now, x, y) :: rest =>
      let r := addTrailPoint dpr now x y false st
      let r' := addRun dpr r.1 rest
      (r'.1, r.2 :: r'.2)

/-! ### Trail fade rendering (SlashTrail.ts drawTrail, lines 106-155) -/

/-- The uniform fade alpha computed at the top of `drawTrail`
(lines 112-120). -/
def trailFadeAlpha (now : ℚ) (st : SlashTrailState) : ℚ :=
  if st.isDrawing = false ∧ 0 < st.drawingEndTime then
    let timeSinceEnd := now - st.drawingEndTime
    if TRAIL_FADE_TIME < timeSinceEnd then
      max 0 (1 - (timeSinceEnd - TRAIL_FADE_TIME) / TRAIL_FADE_DURATION)
    else 1
  else 1

/-- `getCatmullRomPoint` (SlashTrail.ts lines 236-261). -/
def getCatmullRomPoint (p0 p1 p2 p3 : ℚ × ℚ) (t : ℚ) : ℚ × ℚ :=
  let t2 := t * t
  let t3 := t2 * t
  ((1 : ℚ)/2 * ((2 * p1.1) + (-p0.1 + p2.1) * t
      + (2 * p0.1 - 5 * p1.1 + 4 * p2.1 - p3.1) * t2
      + (-p0.1 + 3 * p1.1 - 3 * p2.1 + p3.1) * t3),
   (1 : ℚ)/2 * ((2 * p1.2) + (-p0.2 + p2.2) * t
      + (2 * p0.2 - 5 * p1.2 + 4 * p2.2 - p3.2) * t2
      + (-p0.2 + 3 * p1.2 - 3 * p2.2 + p3.2) * t3))

/-- `generateSplinePoints` (SlashTrail.ts lines 264-292); each produced
triple is `(x, y, progress)`. -/
def generateSplinePoints (pts : List TrailPoint) : List (ℚ × ℚ × ℚ) :=
  if pts.length < 2 then []
  else
    let n := pts.length
    let segs := (List.range (n - 1)).flatMap (fun i =>
      let p0 := if 0 < i then pts.getD (i - 1) default else pts.getD i default
      let p1 := pts.getD i default
      let p2 := pts.getD (i + 1) default
      let p3 := if i < n - 2 then pts.getD (i + 2) default else pts.getD (i + 1) default
      (List.range 10).map (fun s =>
        let t := (s : ℚ) / 10
        let pt := getCatmullRomPoint (p0.x, p0.y) (p1.x, p1.y) (p2.x, p2.y) (p3.x, p3.y) t
        (pt.1, pt.2, ((i : ℚ) + t) / ((n : ℚ) - 1))))
    let lastPt := pts.getLastD default
    segs ++ [(lastPt.x, lastPt.y, 1)]

/-- The observable outcome of one `drawTrail` tick: the state after the tick,
the computed fade alpha, and whether any geometry was emitted (i.e. whether
control reached `drawTrailLayer`). -/
structure DrawOut where
  state : SlashTrailState
  fadeAlpha : ℚ
  drew : Bool
deriving Repr

/-- `drawTrail` (SlashTrail.ts lines 106-155): clears the canvas, computes the
fade alpha, discards all points once fully faded, and otherwise draws the
splined ribbon when at least two points (and two spline points) exist. -/
def drawTrail (now : ℚ) (st : SlashTrailState) : DrawOut :=
  let fade := trailFadeAlpha now st
  if fade ≤ 0 then ⟨{ st with trailPoints := [] }, fade, false⟩
  else if st.trailPoints.length < 2 then ⟨st, fade, false⟩
  else
    let sp := generateSplinePoints st.trailPoints
    if sp.length < 2 then ⟨st, fade, false⟩
    else ⟨st, fade, true⟩

/-! ### Geometry: Phaser rectangles (world-space bounding boxes) -/

/-- A Phaser `Rectangle` as returned by `getBounds()`. -/
structure Rect where
  x : ℚ
  y : ℚ
  width : ℚ
  height : ℚ
deriving DecidableEq, Repr

/-- `rect.right`. -/
def Rect.right (r : Rect) : ℚ := r.x + r.width

/-- `rect.bottom`. -/
def Rect.bottom (r : Rect) : ℚ := r.y + r.height

/-- `rect.left`. -/
def Rect.leftEdge (r : Rect) : ℚ := r.x

/-- `rect.top`. -/
def Rect.topEdge (r : Rect) : ℚ := r.y

/-- `rect.centerX`. -/
def Rect.centerX (r : Rect) : ℚ := r.x + r.width / 2

/-- `rect.centerY`. -/
def Rect.centerY (r : Rect) : ℚ := r.y + r.height / 2

/-- `Phaser.Geom.Rectangle.Contains`: degenerate rectangles contain nothing,
otherwise all four edges are inclusive. -/
def Rect.contains (r : Rect) (px py : ℚ) : Bool :=
  if r.width ≤ 0 ∨ r.height ≤ 0 then false
  else decide (r.x ≤ px ∧ px ≤ r.x + r.width ∧ r.y ≤ py ∧ py ≤ r.y + r.height)

/-! ### The target collaborator -/

/-- A live target as the collision/damage core sees it: an identity, the
world-space bounding box of its container, the container alpha, the per-pixel
opacity predicate `isPixelOpaque(relativeX, relativeY)` (field `isPixelHit`
here), and its hit points.  `takeDamage`/`isDead` (Target.ts lines 579-587)
are `takeDamageQ`/`isDeadQ` below. -/
structure TargetModel where
  id : ℕ
  bounds : Rect
  alpha : ℚ
  isPixelHit : ℚ → ℚ → Bool
  hp : ℚ

/-- `Target.takeDamage`: `hp = Math.max(0, hp - damage)`. -/
def takeDamageQ (hp damage : ℚ) : ℚ := max 0 (hp - damage)

/-- `Target.isDead`: `hp <= 0`. -/
def isDeadQ (hp : ℚ) : Bool := decide (hp ≤ 0)

/-! ### Collision resolution (GameScene.onPointerMove) -/

/-- The observable side effects one pointer-move can request. `spanSearch`
marks that the bidirectional opaque-span search loops executed for a
qualifying sample; `slashDamage`/`spark`/`slashMark` are the
`drawSlashDamage`, `emitAtSlash` and `addSlashMark` calls; `slashPoint` is the
four-argument `drawSlashDamage(x, y, 0, 0)` of the no-previous-point branch. -/
inductive Effect where
  | playClank
  | shake (tid : ℕ) (dx dy : ℚ)
  | spanSearch (tid : ℕ)
  | slashDamage (tid : ℕ) (cx cy dx dy sx sy ex ey : ℚ)
  | spark (sx sy ex ey : ℚ)
  | slashMark (sx sy ex ey : ℚ)
  | slashPoint (tid : ℕ) (cx cy dx dy : ℚ)
deriving DecidableEq, Repr

/-- `Set.add` on the touched-target set `hitTargetsThisSlash`, modelled as an
insertion-ordered duplicate-free list of target ids. -/
def addHit (tid : ℕ) (l : List ℕ) : List ℕ :=
  if tid ∈ l then l else l ++ [tid]

/-- The guarded direction normalization
`length > 0 ? d / length : 0` (both components). -/
def normalizeDir (dx dy len : ℚ) : ℚ × ℚ :=
  (if 0 < len then dx / len else 0, if 0 < len then dy / len else 0)

/-- One direction of the span search
(`for (let dist = sampleStep; dist < maxSearchLength; dist += sampleStep)`
with `sampleStep = 2 * dpr`, `maxSearchLength = 100 * dpr`): starting at
iteration `k`, keep extending the recorded world-space endpoint `acc` while
the tested pixel stays opaque; stop at the first transparent pixel.  For
`dpr > 0` the loop runs for `2 * dpr * k < 100 * dpr`, i.e. `k ≤ 49`, which
the bound `k < 50` transcribes. -/
def spanGo (op : ℚ → ℚ → Bool) (relX relY nx ny dpr cX cY sgn : ℚ)
    (k : ℕ) (acc : ℚ × ℚ) : ℚ × ℚ :=
  if 50 ≤ k then acc
  else
    let d := 2 * dpr * (k : ℚ)
    let tX := relX + sgn * (nx * d)
    let tY := relY + sgn * (ny * d)
    if op tX tY then
      spanGo op relX relY nx ny dpr cX cY sgn (k + 1) (tX + cX, tY + cY)
    else acc
termination_by 50 - k

/-- The backward/forward span endpoints recovered for the qualifying sample
`(cX, cY)` on target `t` (GameScene v2 lines 2410-2455): `relativeStart` is
the sample in container-relative coordinates, the direction is the guarded
normalization of `Δ`, and each direction scans from `sampleStep` up. -/
def spanOf (dpr dx dy dist : ℚ) (t : TargetModel) (cX cY : ℚ) :
    (ℚ × ℚ) × (ℚ × ℚ) :=
  let relX := cX - t.bounds.centerX
  let relY := cY - t.bounds.centerY
  let n := normalizeDir dx dy dist
  (spanGo t.isPixelHit relX relY n.1 n.2 dpr t.bounds.centerX t.bounds.centerY (-1) 1 (cX, cY),
   spanGo t.isPixelHit relX relY n.1 n.2 dpr t.bounds.centerX t.bounds.centerY 1 1 (cX, cY))

/-- The per-qualifying-sample effects (GameScene v2 lines 2410-2484): the span
search in both directions followed by `drawSlashDamage`, `emitAtSlash` and
`addSlashMark` on the recovered span. -/
def hitEffects (dpr dx dy dist : ℚ) (t : TargetModel) (cX cY : ℚ) : List Effect :=
  let s := (spanOf dpr dx dy dist t cX cY).1
  let e := (spanOf dpr dx dy dist t cX cY).2
  [.spanSearch t.id,
   .slashDamage t.id cX cY dx dy s.1 s.2 e.1 e.2,
   .spark s.1 s.2 e.1 e.2,
   .slashMark s.1 s.2 e.1 e.2]

/-- The loop-carried state of the narrow phase: the per-move-event one-shot
flag `hitInThisSegment`, the touched-target set, `hasHitTarget`, and the
effects requested so far. -/
structure PassAcc where
  hitInThisSegment : Bool
  hitTargets : List ℕ
  hasHitTarget : Bool
  effects : List Effect

/-- The body of the nested sample/target loop (GameScene v2 lines 2393-2485):
bounding-box test, per-pixel opacity test, the once-per-move-event
sound/shake block, then span search and mark emission for every qualifying
sample. -/
def narrowStep (dpr dx dy dist cX cY : ℚ) (t : TargetModel) (a : PassAcc) : PassAcc :=
  if t.bounds.contains cX cY then
    if t.isPixelHit (cX - t.bounds.centerX) (cY - t.bounds.centerY) then
      let a1 :=
        if a.hitInThisSegment then a
        else
          { hitInThisSegment := true
            hitTargets := addHit t.id a.hitTargets
            hasHitTarget := true
            effects := a.effects ++ [.playClank, .shake t.id dx dy] }
      { hitInThisSegment := a1.hitInThisSegment
        hitTargets := addHit t.id a1.hitTargets
        hasHitTarget := true
        effects := a1.effects ++ hitEffects dpr dx dy dist t cX cY }
    else a
  else a

/-- The sample/target pairs the narrow phase visits, in loop order: for each
interpolation sample (outer loop), each nearby target (inner loop). -/
def pairList (samples : List (ℚ × ℚ)) (nearby : List TargetModel) :
    List ((ℚ × ℚ) × TargetModel) :=
  samples.flatMap (fun c => nearby.map (fun t => (c, t)))

/-- Run the narrow phase over the visited pairs. -/
def runPairs (dpr dx dy dist : ℚ) (a : PassAcc)
    (pairs : List ((ℚ × ℚ) × TargetModel)) : PassAcc :=
  pairs.foldl (fun acc p => narrowStep dpr dx dy dist p.1.1 p.1.2 p.2 acc) a

/-- The `i`-th interpolation sample:
`t = steps > 0 ? i / steps : 1`, `check = prev + Δ * t`
(GameScene v2 lines 2387-2390). -/
def samplePoint (px py dx dy : ℚ) (steps i : ℕ) : ℚ × ℚ :=
  let t : ℚ := if 0 < steps then (i : ℚ) / (steps : ℚ) else 1
  (px + dx * t, py + dy * t)

/-- All interpolation samples of one move event: `i = 0, …, steps`. -/
def interpSamples (px py dx dy : ℚ) (steps : ℕ) : List (ℚ × ℚ) :=
  (List.range (steps + 1)).map (samplePoint px py dx dy steps)

/-- The broad phase (GameScene v2 lines 2366-2377): keep a target unless its
bounding box lies strictly outside the segment's axis-aligned bounding box
expanded by the fixed 50-pixel margin. -/
def broadPass (px py cx cy : ℚ) (b : Rect) : Bool :=
  let segmentMinX := min px cx - 50
  let segmentMaxX := max px cx + 50
  let segmentMinY := min py cy - 50
  let segmentMaxY := max py cy + 50
  !(decide (b.right < segmentMinX) || decide (b.leftEdge > segmentMaxX) ||
    decide (b.bottom < segmentMinY) || decide (b.topEdge > segmentMaxY))

/-- The slash-resolution state a `GameScene` carries across one gesture. -/
structure MoveState where
  targets : List TargetModel
  hitTargets : List ℕ
  hasHitTarget : Bool
  currentSlashLength : ℚ

/-- One target of the no-previous-point branch (GameScene v2 lines
2491-2505): test the single current point; on an opaque hit play the clank,
call the four-argument `drawSlashDamage` and shake with a zero delta. -/
def singleStep (cx cy : ℚ) (t : TargetModel) (acc : MoveState × List Effect) :
    MoveState × List Effect :=
  if t.bounds.contains cx cy then
    if t.isPixelHit (cx - t.bounds.centerX) (cy - t.bounds.centerY) then
      ({ acc.1 with
          hasHitTarget := true
          hitTargets := addHit t.id acc.1.hitTargets },
       acc.2 ++ [.playClank, .slashPoint t.id cx cy 0 0, .shake t.id 0 0])
    else acc
  else acc

/-- The no-previous-point branch (GameScene v2 lines 2489-2506): the single
current point is tested against every visible target in turn. -/
def singlePointPass (cx cy : ℚ) (visible : List TargetModel)
    (σ : MoveState) : MoveState × List Effect :=
  visible.foldl (fun acc t => singleStep cx cy t acc) (σ, [])

/-- `GameScene.onPointerMove` of the second revision (part_008 lines
2325-2507), from the visibility filter on: `prev` is
`slashTrail.getLastPoint()` before the current point was recorded, `cur` the
current game-space point, and `dist` the value
`Math.sqrt(dx*dx + dy*dy)` the source computes (supplied as a parameter; the
source only ever produces `dist ≥ 0` with `dist * dist = dx² + dy²`). -/
def onPointerMoveV2 (dpr : ℚ) (prev : Option (ℚ × ℚ)) (cur : ℚ × ℚ)
    (dist : ℚ) (σ : MoveState) : MoveState × List Effect :=
  let visibleTargets := σ.targets.filter (fun t => decide ((0.3 : ℚ) ≤ t.alpha))
  if visibleTargets.isEmpty then (σ, [])
  else
    match prev with
    | some p =>
        let dx := cur.1 - p.1
        let dy := cur.2 - p.2
        let σ1 := { σ with currentSlashLength := σ.currentSlashLength + dist }
        let nearbyTargets := visibleTargets.filter (fun t => broadPass p.1 p.2 cur.1 cur.2 t.bounds)
        if nearbyTargets.isEmpty then (σ1, [])
        else
          let stepSize := 4 * dpr
          let steps := (⌈dist / stepSize⌉).toNat
          let samples := interpSamples p.1 p.2 dx dy steps
          let a := runPairs dpr dx dy dist
            ⟨false, σ1.hitTargets, σ1.hasHitTarget, []⟩
            (pairList samples nearbyTargets)
          ({ σ1 with hitTargets := a.hitTargets, hasHitTarget := a.hasHitTarget },
           a.effects)
    | none => singlePointPass cur.1 cur.2 visibleTargets σ

/-- `GameScene.onPointerMove` of the first revision (part_008 lines 632-794):
identical narrow phase, but no broad phase and a fixed `stepSize = 2`. -/
def onPointerMoveV1 (dpr : ℚ) (prev : Option (ℚ × ℚ)) (cur : ℚ × ℚ)
    (dist : ℚ) (σ : MoveState) : MoveState × List Effect :=
  let visibleTargets := σ.targets.filter (fun t => decide ((0.3 : ℚ) ≤ t.alpha))
  if visibleTargets.isEmpty then (σ, [])
  else
    match prev with
    | some p =>
        let dx := cur.1 - p.1
        let dy := cur.2 - p.2
        let σ1 := { σ with currentSlashLength := σ.currentSlashLength + dist }
        let steps := (⌈dist / 2⌉).toNat
        let samples := interpSamples p.1 p.2 dx dy steps
        let a := runPairs dpr dx dy dist
          ⟨false, σ1.hitTargets, σ1.hasHitTarget, []⟩
          (pairList samples visibleTargets)
        ({ σ1 with hitTargets := a.hitTargets, hasHitTarget := a.hasHitTarget },
         a.effects)
    | none => singlePointPass cur.1 cur.2 visibleTargets σ

/-- The early-return guard of `Target.drawSlashDamage` (Target.ts v2, lines
704-706): with a zero-length direction the whole damage-direction math is
skipped (`if (length === 0) return`). -/
def drawSlashDamageActs (directionX directionY : ℚ) : Bool :=
  !(decide (directionX = 0 ∧ directionY = 0))

/-! ### Damage & outcome resolution (GameScene.onPointerUp) -/

/-- The damage formula of the first revision (part_008 lines 802-808):
`Math.min(50 + (currentSlashLength / (300 * dpr)) * 50, 100)`. -/
def computeDamage (dpr len : ℚ) : ℚ :=
  min (50 + len / (300 * dpr) * 50) 100

/-- `GameScene.onPointerUp` of the first revision, projected to the
`takeDamage` calls it issues: one call per element of the touched-target set,
all with the same computed damage. -/
def onPointerUpV1 (dpr : ℚ) (σ : MoveState) : List (ℕ × ℚ) :=
  if σ.hitTargets.isEmpty then []
  else σ.hitTargets.map (fun tid => (tid, computeDamage dpr σ.currentSlashLength))

/-- The evolving state of the second revision's pointer-up pass: the live
target collection (`this.targets`), the `takeDamage` calls issued, and the
`progressionManager.onEnemyKilled()` notifications, in order. -/
structure UpState where
  targets : List TargetModel
  damaged : List (ℕ × ℚ)
  killed : List ℕ

/-- One iteration of the second revision's pointer-up loop (part_008 lines
2524-2581) for the touched target `tid`: apply `takeDamage`; if the target is
dead, remove it from the live collection (`indexOf`/`splice`, i.e. first
occurrence) and notify `onEnemyKilled` once.  A touched target that is no
longer in the live collection can only arise from the external stale-cleanup
path; the resolution pass is modelled for targets present in the collection,
which is the hypothesis of the theorems below. -/
def upStep (damage : ℚ) (st : UpState) (tid : ℕ) : UpState :=
  match st.targets.find? (fun t => t.id == tid) with
  | none => st
  | some t =>
      let hp' := takeDamageQ t.hp damage
      let damaged := st.damaged ++ [(tid, damage)]
      if isDeadQ hp' then
        { targets := st.targets.eraseP (fun u => u.id == tid)
          damaged := damaged
          killed := st.killed ++ [tid] }
      else
        { targets := st.targets.map (fun u => if u.id == tid then { u with hp := hp' } else u)
          damaged := damaged
          killed := st.killed }

/-- `GameScene.onPointerUp` of the second revision (part_008 lines
2509-2587): one-hit-kill damage 9999 applied to each touched target in set
order, with synchronous removal and kill notification for each death. -/
def onPointerUpV2 (σ : MoveState) : UpState :=
  if σ.hitTargets.isEmpty then ⟨σ.targets, [], []⟩
  else σ.hitTargets.foldl (upStep 9999) ⟨σ.targets, [], []⟩

/-! ### A whole gesture -/

/-- The data of one pointer-move call: the previous trail point (if any), the
current point, and the source's `Math.sqrt` segment length. -/
structure GestureMove where
  prev : Option (ℚ × ℚ)
  cur : ℚ × ℚ
  dist : ℚ

/-- `onPointerDown` (lines 611-630) resets the gesture-scoped state:
`hasHitTarget = false`, `currentSlashLength = 0`, `hitTargetsThisSlash.clear()`. -/
def pointerDownState (targets : List TargetModel) : MoveState :=
  ⟨targets, [], false, 0⟩

/-- Fold a list of pointer-move calls (first revision) over the state. -/
def runMoves (dpr : ℚ) (σ : MoveState) (mvs : List GestureMove) : MoveState :=
  mvs.foldl (fun s m => (onPointerMoveV1 dpr m.prev m.cur m.dist s).1) σ

/-! ### Derived notions used to state and prove the claims -/

/-- Recognizer for the hit-sound request. -/
def isClankE : Effect → Bool
  | .playClank => true
  | _ => false

/-- Recognizer for shake effects. -/
def isShakeE : Effect → Bool
  | .shake _ _ _ => true
  | _ => false

/-- Recognizer for executed span searches. -/
def isSpanSearchE : Effect → Bool
  | .spanSearch _ => true
  | _ => false

/-- Recognizer for `addSlashMark` emissions. -/
def isSlashMarkE : Effect → Bool
  | .slashMark _ _ _ _ => true
  | _ => false

/-- A sample/target pair qualifies when the bounding box contains the sample
and the per-pixel opacity test succeeds there. -/
def qualifies (t : TargetModel) (cX cY : ℚ) : Bool :=
  t.bounds.contains cX cY &&
    t.isPixelHit (cX - t.bounds.centerX) (cY - t.bounds.centerY)

/-- Whether a visited pair qualifies. -/
def pairQual (p : (ℚ × ℚ) × TargetModel) : Bool :=
  qualifies p.2 p.1.1 p.1.2

/-- The effect trace the narrow phase emits over a pair list, starting from a
given one-shot flag: the first qualifying pair (with the flag clear) adds the
clank and shake, every qualifying pair adds its span-search effects. -/
def pairEffects (dpr dx dy dist : ℚ) : Bool → List ((ℚ × ℚ) × TargetModel) → List Effect
  | _, [] => []
  | flag, p :: rest =>
      if pairQual p then
        (if flag then hitEffects dpr dx dy dist p.2 p.1.1 p.1.2
         else [.playClank, .shake p.2.id dx dy] ++ hitEffects dpr dx dy dist p.2 p.1.1 p.1.2)
          ++ pairEffects dpr dx dy dist true rest
      else pairEffects dpr dx dy dist flag rest

/-- The touched-target set after the narrow phase: every qualifying pair's
target id is added. -/
def hitsFold (pairs : List ((ℚ × ℚ) × TargetModel)) (l : List ℕ) : List ℕ :=
  pairs.foldl (fun acc p => if pairQual p then addHit p.2.id acc else acc) l

/-! ### Lemmas about the touched-target set -/

theorem mem_addHit {a b : ℕ} {l : List ℕ} : a ∈ addHit b l ↔ a = b ∨ a ∈ l := by
  unfold addHit
  by_cases hb : b ∈ l
  · simp only [if_pos hb]
    constructor
    · exact Or.inr
    · rintro (rfl | h)
      · exact hb
      · exact h
  · simp [if_neg hb, or_comm]

theorem addHit_idem (b : ℕ) (l : List ℕ) : addHit b (addHit b l) = addHit b l := by
  have h : b ∈ addHit b l := mem_addHit.mpr (Or.inl rfl)
  show (if b ∈ addHit b l then addHit b l else addHit b l ++ [b]) = addHit b l
  exact if_pos h

theorem nodup_addHit {b : ℕ} {l : List ℕ} (h : l.Nodup) : (addHit b l).Nodup := by
  unfold addHit
  by_cases hb : b ∈ l
  · simpa [hb]
  · simp [hb, List.nodup_append, h]

theorem nodup_hitsFold (pairs : List ((ℚ × ℚ) × TargetModel)) :
    ∀ l : List ℕ, l.Nodup → (hitsFold pairs l).Nodup := by
  induction pairs with
  | nil => intro l h; simpa [hitsFold]
  | cons p rest ih =>
      intro l h
      by_cases hq : pairQual p
      · simpa [hitsFold, hq] using ih (addHit p.2.id l) (nodup_addHit h)
      · simpa [hitsFold, hq] using ih l h

/-! ### Narrow-phase step lemmas -/

theorem narrowStep_not_qual (dpr dx dy dist cX cY : ℚ) (t : TargetModel) (a : PassAcc)
    (h : qualifies t cX cY = false) :
    narrowStep dpr dx dy dist cX cY t a = a := by
  unfold narrowStep
  rcases Bool.and_eq_false_iff.mp (by simpa [qualifies] using h) with h1 | h1 <;>
    simp [h1]

theorem narrowStep_qual_flagged (dpr dx dy dist cX cY : ℚ) (t : TargetModel) (a : PassAcc)
    (h : qualifies t cX cY = true) (hf : a.hitInThisSegment = true) :
    narrowStep dpr dx dy dist cX cY t a =
      { hitInThisSegment := true
        hitTargets := addHit t.id a.hitTargets
        hasHitTarget := true
        effects := a.effects ++ hitEffects dpr dx dy dist t cX cY } := by
  have h' := h
  simp only [qualifies, Bool.and_eq_true] at h'
  obtain ⟨h1, h2⟩ := h'
  unfold narrowStep
  simp [h1, h2, hf]

theorem narrowStep_qual_fresh (dpr dx dy dist cX cY : ℚ) (t : TargetModel) (a : PassAcc)
    (h : qualifies t cX cY = true) (hf : a.hitInThisSegment = false) :
    narrowStep dpr dx dy dist cX cY t a =
      { hitInThisSegment := true
        hitTargets := addHit t.id a.hitTargets
        hasHitTarget := true
        effects := a.effects ++ ([.playClank, .shake t.id dx dy] ++ hitEffects dpr dx dy dist t cX cY) } := by
  have h' := h
  simp only [qualifies, Bool.and_eq_true] at h'
  obtain ⟨h1, h2⟩ := h'
  unfold narrowStep
  simp [h1, h2, hf, addHit_idem]

/-! ### Characterizing the narrow-phase fold -/

theorem runPairs_spec (dpr dx dy dist : ℚ) (pairs : List ((ℚ × ℚ) × TargetModel)) :
    ∀ a : PassAcc,
      runPairs dpr dx dy dist a pairs =
        { hitInThisSegment := a.hitInThisSegment || pairs.any pairQual
          hitTargets := hitsFold pairs a.hitTargets
          hasHitTarget := a.hasHitTarget || pairs.any pairQual
          effects := a.effects ++ pairEffects dpr dx dy dist a.hitInThisSegment pairs } := by
  induction pairs with
  | nil =>
      intro a
      simp [runPairs, hitsFold, pairEffects]
  | cons p rest ih =>
      intro a
      have step :
          runPairs dpr dx dy dist a (p :: rest) =
            runPairs dpr dx dy dist (narrowStep dpr dx dy dist p.1.1 p.1.2 p.2 a) rest := by
        simp [runPairs]
      rw [step]
      by_cases hq : pairQual p = true
      · cases hflag : a.hitInThisSegment with
        | true =>
            rw [narrowStep_qual_flagged dpr dx dy dist p.1.1 p.1.2 p.2 a (by simpa [pairQual] using hq) hflag]
            rw [ih]
            simp [hitsFold, pairEffects, hq, hflag]
        | false =>
            rw [narrowStep_qual_fresh dpr dx dy dist p.1.1 p.1.2 p.2 a (by simpa [pairQual] using hq) hflag]
            rw [ih]
            simp [hitsFold, pairEffects, hq, hflag]
      · have hq' : pairQual p = false := by simpa using hq
        rw [narrowStep_not_qual dpr dx dy dist p.1.1 p.1.2 p.2 a (by simpa [pairQual] using hq')]
        rw [ih]
        simp [hitsFold, pairEffects, hq']

/-- The `addSlashMark` emission of one qualifying sample. -/
def markOf (dpr dx dy dist : ℚ) (t : TargetModel) (cX cY : ℚ) : Effect :=
  .slashMark (spanOf dpr dx dy dist t cX cY).1.1 (spanOf dpr dx dy dist t cX cY).1.2
    (spanOf dpr dx dy dist t cX cY).2.1 (spanOf dpr dx dy dist t cX cY).2.2

/-- The shake effect of the first qualifying pair, if any. -/
def firstShake (dx dy : ℚ) (pairs : List ((ℚ × ℚ) × TargetModel)) : List Effect :=
  match (pairs.filter pairQual).head? with
  | none => []
  | some p => [.shake p.2.id dx dy]

theorem hitEffects_filter_clank (dpr dx dy dist : ℚ) (t : TargetModel) (cX cY : ℚ) :
    (hitEffects dpr dx dy dist t cX cY).filter isClankE = [] := by
  simp [hitEffects, isClankE]

theorem hitEffects_filter_shake (dpr dx dy dist : ℚ) (t : TargetModel) (cX cY : ℚ) :
    (hitEffects dpr dx dy dist t cX cY).filter isShakeE = [] := by
  simp [hitEffects, isShakeE]

theorem hitEffects_filter_span (dpr dx dy dist : ℚ) (t : TargetModel) (cX cY : ℚ) :
    (hitEffects dpr dx dy dist t cX cY).filter isSpanSearchE = [.spanSearch t.id] := by
  simp [hitEffects, isSpanSearchE]

theorem hitEffects_filter_mark (dpr dx dy dist : ℚ) (t : TargetModel) (cX cY : ℚ) :
    (hitEffects dpr dx dy dist t cX cY).filter isSlashMarkE =
      [markOf dpr dx dy dist t cX cY] := by
  simp [hitEffects, isSlashMarkE, markOf]

theorem pairEffects_filter_clank (dpr dx dy dist : ℚ)
    (pairs : List ((ℚ × ℚ) × TargetModel)) :
    ∀ flag, (pairEffects dpr dx dy dist flag pairs).filter isClankE =
      if !flag && pairs.any pairQual then [.playClank] else [] := by
  induction pairs with
  | nil => intro flag; simp [pairEffects]
  | cons p rest ih =>
      intro flag
      by_cases hq : pairQual p = true
      · cases flag with
        | true => simp [pairEffects, hq, hitEffects_filter_clank, ih]
        | false => simp [pairEffects, hq, hitEffects_filter_clank, ih, isClankE]
      · have hq' : pairQual p = false := by simpa using hq
        simp only [pairEffects, hq', Bool.false_eq_true, if_false, ih, List.any_cons,
          Bool.false_or]

theorem pairEffects_filter_shake (dpr dx dy dist : ℚ)
    (pairs : List ((ℚ × ℚ) × TargetModel)) :
    ∀ flag, (pairEffects dpr dx dy dist flag pairs).filter isShakeE =
      if flag then [] else firstShake dx dy pairs := by
  induction pairs with
  | nil => intro flag; simp [pairEffects, firstShake]
  | cons p rest ih =>
      intro flag
      by_cases hq : pairQual p = true
      · cases flag with
        | true => simp [pairEffects, hq, hitEffects_filter_shake, ih]
        | false =>
            simp [pairEffects, hq, hitEffects_filter_shake, ih, isShakeE, firstShake]
      · have hq' : pairQual p = false := by simpa using hq
        simp [pairEffects, hq', ih, firstShake]

theorem pairEffects_filter_span (dpr dx dy dist : ℚ)
    (pairs : List ((ℚ × ℚ) × TargetModel)) :
    ∀ flag, (pairEffects dpr dx dy dist flag pairs).filter isSpanSearchE =
      (pairs.filter pairQual).map (fun p => Effect.spanSearch p.2.id) := by
  induction pairs with
  | nil => intro flag; simp [pairEffects]
  | cons p rest ih =>
      intro flag
      by_cases hq : pairQual p = true
      · cases flag with
        | true => simp [pairEffects, hq, hitEffects_filter_span, ih]
        | false => simp [pairEffects, hq, hitEffects_filter_span, ih, isSpanSearchE, isClankE, isShakeE]
      · have hq' : pairQual p = false := by simpa using hq
        simp [pairEffects, hq', ih]

theorem pairEffects_filter_mark (dpr dx dy dist : ℚ)
    (pairs : List ((ℚ × ℚ) × TargetModel)) :
    ∀ flag, (pairEffects dpr dx dy dist flag pairs).filter isSlashMarkE =
      (pairs.filter pairQual).map (fun p => markOf dpr dx dy dist p.2 p.1.1 p.1.2) := by
  induction pairs with
  | nil => intro flag; simp [pairEffects]
  | cons p rest ih =>
      intro flag
      by_cases hq : pairQual p = true
      · cases flag with
        | true => simp [pairEffects, hq, hitEffects_filter_mark, ih]
        | false => simp [pairEffects, hq, hitEffects_filter_mark, ih, isSlashMarkE]
      · have hq' : pairQual p = false := by simpa using hq
        simp [pairEffects, hq', ih]

/-- With a zero direction the span-search loop keeps testing the triggering
sample itself, so the recorded endpoint never moves. -/
theorem spanGo_zero (op : ℚ → ℚ → Bool) (relX relY dpr cX cY sgn : ℚ) :
    ∀ k, spanGo op relX relY 0 0 dpr cX cY sgn k (relX + cX, relY + cY) =
      (relX + cX, relY + cY) := by
  have main : ∀ m k, 50 - k ≤ m →
      spanGo op relX relY 0 0 dpr cX cY sgn k (relX + cX, relY + cY) =
        (relX + cX, relY + cY) := by
    intro m
    induction m with
    | zero =>
        intro k hk
        have h50 : 50 ≤ k := by omega
        rw [spanGo]
        simp [h50]
    | succ m ih =>
        intro k hk
        by_cases h50 : 50 ≤ k
        · rw [spanGo]; simp [h50]
        · rw [spanGo]
          simp only [h50, if_false, mul_zero, zero_mul, add_zero]
          by_cases hop : op relX relY = true
          · simp only [hop, if_true]
            exact ih (k + 1) (by omega)
          · have hop' : op relX relY = false := by simpa using hop
            simp [hop']
  intro k
  exact main (50 - k) k le_rfl

/-- A zero movement delta makes every interpolation sample the previous
point itself. -/
theorem samplePoint_zero_delta (px py : ℚ) (steps i : ℕ) :
    samplePoint px py 0 0 steps i = (px, py) := by
  simp [samplePoint]

theorem interpSamples_length (px py dx dy : ℚ) (steps : ℕ) :
    (interpSamples px py dx dy steps).length = steps + 1 := by
  simp [interpSamples]

theorem interpSamples_getD (px py dx dy : ℚ) (steps i : ℕ) (h : i ≤ steps) :
    (interpSamples px py dx dy steps).getD i (0, 0) =
      samplePoint px py dx dy steps i := by
  have hi : i < steps + 1 := Nat.lt_succ_of_le h
  simp [interpSamples, List.getD_eq_getElem?_getD, List.getElem?_map,
    List.getElem?_range, hi]

/-! ### Trail tracker lemmas -/

theorem addTrailPoint_drawingStartTime (dpr now x y : ℚ) (force : Bool) (st : SlashTrailState) :
    ((addTrailPoint dpr now x y force st).1).drawingStartTime = st.drawingStartTime := by
  unfold addTrailPoint endDrawing
  by_cases h1 : MAX_SLASH_DURATION ≤ now - st.drawingStartTime
  · simp [h1]
  · by_cases h2 : (!force && skipClose dpr x y st.trailPoints) = true
    · simp [h1, h2]
    · simp [h1, h2]

theorem addTrailPoint_length_lt (dpr now x y : ℚ) (force : Bool) (st : SlashTrailState)
    (h : st.trailPoints.length < MAX_TRAIL_POINTS) :
    ((addTrailPoint dpr now x y force st).1).trailPoints.length < MAX_TRAIL_POINTS := by
  by_cases h1 : MAX_SLASH_DURATION ≤ now - st.drawingStartTime
  · unfold addTrailPoint
    rw [if_pos h1]
    simpa [endDrawing] using h
  · by_cases h2 : (!force && skipClose dpr x y st.trailPoints) = true
    · unfold addTrailPoint
      rw [if_neg h1, if_pos h2]
      simpa using h
    · unfold addTrailPoint
      rw [if_neg h1, if_neg h2]
      show (if MAX_TRAIL_POINTS ≤ (st.trailPoints ++ [(⟨x, y, now, 1⟩ : TrailPoint)]).length
          then (st.trailPoints ++ [(⟨x, y, now, 1⟩ : TrailPoint)]).tail
          else st.trailPoints ++ [(⟨x, y, now, 1⟩ : TrailPoint)]).length < MAX_TRAIL_POINTS
      have hlen : (st.trailPoints ++ [(⟨x, y, now, 1⟩ : TrailPoint)]).length =
          st.trailPoints.length + 1 := by simp
      by_cases h3 : MAX_TRAIL_POINTS ≤ (st.trailPoints ++ [(⟨x, y, now, 1⟩ : TrailPoint)]).length
      · rw [if_pos h3]
        rw [List.length_tail, hlen]
        omega
      · rw [if_neg h3]
        rw [hlen] at h3 ⊢
        omega

theorem applyOp_length_lt (dpr : ℚ) (st : SlashTrailState) (op : TrailOp)
    (h : st.trailPoints.length < MAX_TRAIL_POINTS) :
    (applyOp dpr st op).trailPoints.length < MAX_TRAIL_POINTS := by
  cases op with
  | start now x y =>
      have hdef : applyOp dpr st (.start now x y) =
          (addTrailPoint dpr now x y true
            { st with
              isDrawing := true
              drawingStartTime := now
              drawingEndTime := 0
              trailPoints := [] }).1 := rfl
      rw [hdef]
      exact addTrailPoint_length_lt _ _ _ _ _ _ (by simp [MAX_TRAIL_POINTS])
  | move now x y =>
      have hdef : applyOp dpr st (.move now x y) = (addTrailPoint dpr now x y false st).1 := rfl
      rw [hdef]
      exact addTrailPoint_length_lt _ _ _ _ _ _ h
  | finish now =>
      have hdef : applyOp dpr st (.finish now) = endDrawing now st := rfl
      rw [hdef]
      simpa [endDrawing] using h

theorem runOps_length_lt (dpr : ℚ) (ops : List TrailOp) :
    ∀ st : SlashTrailState, st.trailPoints.length < MAX_TRAIL_POINTS →
      (runOps dpr st ops).trailPoints.length < MAX_TRAIL_POINTS := by
  induction ops with
  | nil => intro st h; simpa [runOps] using h
  | cons op rest ih =>
      intro st h
      have step : runOps dpr st (op :: rest) = runOps dpr (applyOp dpr st op) rest := by
        simp [runOps]
      rw [step]
      exact ih _ (applyOp_length_lt dpr st op h)

/-- C7: After any sequence of `startDrawing` / `addTrailPoint` (and
`endDrawing`) calls from the constructor state, the stored `TrailPoint` count
never exceeds `MAX_TRAIL_POINTS`; and whenever an appended point makes the
count reach the cap, the result is the old list with its head (the oldest
point) dropped and the new point appended last (FIFO), never the newest. -/
theorem trail_cap_fifo (dpr : ℚ) :
    (∀ ops : List TrailOp,
      (runOps dpr initialTrailState ops).trailPoints.length ≤ MAX_TRAIL_POINTS) ∧
    (∀ (now x y : ℚ) (st : SlashTrailState),
      now - st.drawingStartTime < MAX_SLASH_DURATION →
      skipClose dpr x y st.trailPoints = false →
      MAX_TRAIL_POINTS ≤ st.trailPoints.length + 1 →
      ((addTrailPoint dpr now x y false st).1).trailPoints =
        st.trailPoints.tail ++ [⟨x, y, now, 1⟩]) := by
  constructor
  · intro ops
    have h0 : initialTrailState.trailPoints.length < MAX_TRAIL_POINTS := by
      simp [initialTrailState, MAX_TRAIL_POINTS]
    exact le_of_lt (runOps_length_lt dpr ops initialTrailState h0)
  · intro now x y st h1 h2 h3
    have h1' : ¬ MAX_SLASH_DURATION ≤ now - st.drawingStartTime := not_le.mpr h1
    have hcap : MAX_TRAIL_POINTS ≤ (st.trailPoints ++ [(⟨x, y, now, 1⟩ : TrailPoint)]).length := by
      simpa using h3
    have hskip : (!false && skipClose dpr x y st.trailPoints) = false := by
      rw [h2]; simp
    unfold addTrailPoint
    rw [if_neg h1']
    rw [hskip]
    simp only [Bool.false_eq_true, if_false, ite_false]
    show (if MAX_TRAIL_POINTS ≤ (st.trailPoints ++ [(⟨x, y, now, 1⟩ : TrailPoint)]).length
        then (st.trailPoints ++ [(⟨x, y, now, 1⟩ : TrailPoint)]).tail
        else st.trailPoints ++ [(⟨x, y, now, 1⟩ : TrailPoint)]) =
      st.trailPoints.tail ++ [(⟨x, y, now, 1⟩ : TrailPoint)]
    rw [if_pos hcap]
    cases hl : st.trailPoints with
    | nil =>
        rw [hl] at h3
        simp [MAX_TRAIL_POINTS] at h3
    | cons a l' => simp [hl]

/-- C7 witness state: 59 identical stored points. -/
def fullTrailPoints : List TrailPoint :=
  List.replicate 58 ⟨0, 0, 0, 1⟩ ++ [⟨5800, 0, 0, 1⟩]

/-- C7 witness: a concrete run stays under the cap, and a concrete append at
the cap drops the oldest point and keeps the newest. -/
theorem trail_cap_fifo_witness :
    ((runOps 1 initialTrailState [.start 0 0 0, .move 1 10 0, .finish 2]).trailPoints.length
        ≤ MAX_TRAIL_POINTS) ∧
    ((addTrailPoint 1 1 5900 0 false ⟨fullTrailPoints, true, 0, 0⟩).1).trailPoints =
      fullTrailPoints.tail ++ [⟨5900, 0, 1, 1⟩] := by
  constructor
  · exact (trail_cap_fifo 1).1 [.start 0 0 0, .move 1 10 0, .finish 2]
  · refine (trail_cap_fifo 1).2 1 5900 0 ⟨fullTrailPoints, true, 0, 0⟩ ?_ ?_ ?_
    · show (1 : ℚ) - 0 < MAX_SLASH_DURATION
      norm_num [MAX_SLASH_DURATION]
    · show skipClose 1 5900 0 fullTrailPoints = false
      unfold skipClose fullTrailPoints
      rw [List.getLast?_concat]
      norm_num [MIN_POINT_DISTANCE]
    · show MAX_TRAIL_POINTS ≤ fullTrailPoints.length + 1
      simp [fullTrailPoints, MAX_TRAIL_POINTS]

/-- C6 counterexample: `startDrawing` at time 0 followed by a single
`addTrailPoint` at time 1000 records `drawingEndTime = 1000`, so the recorded
session duration (end minus start) is 1000 ms, exceeding
`MAX_SLASH_DURATION = 350` ms. -/
theorem session_duration_exceeds_cap :
    MAX_SLASH_DURATION <
      ((addTrailPoint 1 1000 5 5 false (startDrawing 1 0 0 0 initialTrailState)).1).drawingEndTime -
      ((addTrailPoint 1 1000 5 5 false (startDrawing 1 0 0 0 initialTrailState)).1).drawingStartTime := by
  have hstart : startDrawing 1 0 0 0 initialTrailState =
      ⟨[⟨0, 0, 0, 1⟩], true, 0, 0⟩ := by
    norm_num [startDrawing, addTrailPoint, initialTrailState, skipClose,
      MAX_SLASH_DURATION, MAX_TRAIL_POINTS]
  rw [hstart]
  norm_num [addTrailPoint, endDrawing, MAX_SLASH_DURATION]

/-- C6 (amended): from the moment the elapsed time since session start
reaches `MAX_SLASH_DURATION`, every `addTrailPoint` call force-ends the
session (`isDrawing = false`) and returns `false`, until a new session is
started; the recorded end time is the time of the ending call, which is why a
late call can make the recorded duration exceed the cap. -/
theorem addPoint_after_timeout (dpr : ℚ) (st : SlashTrailState)
    (moves : List (ℚ × ℚ × ℚ))
    (hlate : ∀ m ∈ moves, st.drawingStartTime + MAX_SLASH_DURATION ≤ m.1) :
    (∀ b ∈ (addRun dpr st moves).2, b = false) ∧
    (moves ≠ [] → ((addRun dpr st moves).1).isDrawing = false) := by
  induction moves generalizing st with
  | nil => simp [addRun]
  | cons m rest ih =>
      obtain ⟨now, x, y⟩ := m
      have hnow : st.drawingStartTime + MAX_SLASH_DURATION ≤ now :=
        hlate (now, x, y) (List.mem_cons_self _ _)
      have hto : MAX_SLASH_DURATION ≤ now - st.drawingStartTime := by linarith
      have hstep : addTrailPoint dpr now x y false st = (endDrawing now st, false) := by
        unfold addTrailPoint
        rw [if_pos hto]
      have hrest : ∀ m' ∈ rest, (endDrawing now st).drawingStartTime + MAX_SLASH_DURATION ≤ m'.1 := by
        intro m' hm'
        have : (endDrawing now st).drawingStartTime = st.drawingStartTime := rfl
        rw [this]
        exact hlate m' (List.mem_cons_of_mem _ hm')
      have iha := ih (endDrawing now st) hrest
      constructor
      · intro b hb
        simp only [addRun, hstep] at hb
        rcases List.mem_cons.mp hb with hb | hb
        · exact hb
        · exact iha.1 b hb
      · intro _
        simp only [addRun, hstep]
        cases hr : rest with
        | nil => simp [addRun, endDrawing]
        | cons m' rest' =>
            have := iha.2 (by simp [hr])
            rw [hr] at this
            simpa using this

/-- C6 witness for the amended claim: two late calls both return `false` and
leave the session ended. -/
theorem addPoint_after_timeout_witness :
    (∀ b ∈ (addRun 1 ⟨[⟨0, 0, 0, 1⟩], true, 0, 0⟩ [(350, 1, 1), (400, 2, 2)]).2, b = false) ∧
    ((addRun 1 ⟨[⟨0, 0, 0, 1⟩], true, 0, 0⟩ [(350, 1, 1), (400, 2, 2)]).1).isDrawing = false := by
  have h := addPoint_after_timeout 1 ⟨[⟨0, 0, 0, 1⟩], true, 0, 0⟩ [(350, 1, 1), (400, 2, 2)]
    (by
      intro m hm
      show (0 : ℚ) + MAX_SLASH_DURATION ≤ m.1
      have hm' : m = ((350 : ℚ), (1 : ℚ), (1 : ℚ)) ∨ m = (400, 2, 2) := by
        simpa using hm
      rcases hm' with rfl | rfl <;> norm_num [MAX_SLASH_DURATION])
  exact ⟨h.1, h.2 (by simp)⟩

/-! ### Trail fade lemmas (C9) -/

theorem trailFadeAlpha_zero_after (st : SlashTrailState) (now : ℚ)
    (h1 : st.isDrawing = false) (h2 : 0 < st.drawingEndTime)
    (hT : st.drawingEndTime + TRAIL_FADE_TIME + TRAIL_FADE_DURATION ≤ now) :
    trailFadeAlpha now st = 0 := by
  unfold trailFadeAlpha
  rw [if_pos ⟨h1, h2⟩]
  have hgt : TRAIL_FADE_TIME < now - st.drawingEndTime := by
    simp only [TRAIL_FADE_TIME, TRAIL_FADE_DURATION] at hT ⊢
    linarith
  rw [if_pos hgt]
  have hone : (1 : ℚ) ≤ (now - st.drawingEndTime - TRAIL_FADE_TIME) / TRAIL_FADE_DURATION := by
    rw [le_div_iff₀ (by norm_num [TRAIL_FADE_DURATION])]
    simp only [TRAIL_FADE_TIME, TRAIL_FADE_DURATION] at hT ⊢
    linarith
  have : 1 - (now - st.drawingEndTime - TRAIL_FADE_TIME) / TRAIL_FADE_DURATION ≤ 0 := by linarith
  exact max_eq_left this

theorem drawTrail_faded (now : ℚ) (st : SlashTrailState)
    (h : trailFadeAlpha now st ≤ 0) :
    drawTrail now st = ⟨{ st with trailPoints := [] }, trailFadeAlpha now st, false⟩ := by
  unfold drawTrail
  rw [if_pos h]

/-- C9: the trail's fade alpha is still positive strictly before
`drawingEndTime + TRAIL_FADE_TIME + TRAIL_FADE_DURATION`, reaches exactly 0
at that instant, at which point the tick discards all trail points and draws
nothing; and every subsequent tick is idempotent: the state (with its empty
point list) is unchanged and nothing is drawn. -/
theorem trail_fade_reaches_zero (st : SlashTrailState)
    (h1 : st.isDrawing = false) (h2 : 0 < st.drawingEndTime) :
    trailFadeAlpha (st.drawingEndTime + TRAIL_FADE_TIME + TRAIL_FADE_DURATION) st = 0 ∧
    (∀ now : ℚ, now < st.drawingEndTime + TRAIL_FADE_TIME + TRAIL_FADE_DURATION →
      0 < trailFadeAlpha now st) ∧
    (∀ now : ℚ, st.drawingEndTime + TRAIL_FADE_TIME + TRAIL_FADE_DURATION ≤ now →
      ((drawTrail now st).state.trailPoints = [] ∧ (drawTrail now st).drew = false)) ∧
    (∀ now now' : ℚ, st.drawingEndTime + TRAIL_FADE_TIME + TRAIL_FADE_DURATION ≤ now →
      ((drawTrail now' ((drawTrail now st).state)).state = (drawTrail now st).state ∧
       (drawTrail now' ((drawTrail now st).state)).drew = false)) := by
  refine ⟨?_, ?_, ?_, ?_⟩
  · exact trailFadeAlpha_zero_after st _ h1 h2 le_rfl
  · intro now hnow
    unfold trailFadeAlpha
    rw [if_pos ⟨h1, h2⟩]
    by_cases hc : TRAIL_FADE_TIME < now - st.drawingEndTime
    · rw [if_pos hc]
      have hlt : (now - st.drawingEndTime - TRAIL_FADE_TIME) / TRAIL_FADE_DURATION < 1 := by
        rw [div_lt_one (by norm_num [TRAIL_FADE_DURATION])]
        simp only [TRAIL_FADE_TIME, TRAIL_FADE_DURATION] at hnow ⊢
        linarith
      have : (0 : ℚ) < 1 - (now - st.drawingEndTime - TRAIL_FADE_TIME) / TRAIL_FADE_DURATION := by
        linarith
      exact lt_max_iff.mpr (Or.inr this)
    · rw [if_neg hc]
      norm_num
  · intro now hnow
    have hz := trailFadeAlpha_zero_after st now h1 h2 hnow
    rw [drawTrail_faded now st (le_of_eq hz)]
    exact ⟨rfl, rfl⟩
  · intro now now' hnow
    have hz := trailFadeAlpha_zero_after st now h1 h2 hnow
    rw [drawTrail_faded now st (le_of_eq hz)]
    set st' : SlashTrailState := { st with trailPoints := [] } with hst'
    have hpts : st'.trailPoints = [] := rfl
    by_cases hf : trailFadeAlpha now' st' ≤ 0
    · rw [drawTrail_faded now' st' hf]
      constructor
      · show ({ st' with trailPoints := [] } : SlashTrailState) = st'
        rw [hst']
      · rfl
    · have hlen : st'.trailPoints.length < 2 := by simp [hpts]
      unfold drawTrail
      rw [if_neg hf, if_pos hlen]
      exact ⟨rfl, rfl⟩

/-- C9 witness: a session that ended at time 5 fades to 0 exactly at 255,
is still visible at 200, is cleared and not drawn at 300, and ticking again
at 400 changes nothing. -/
theorem trail_fade_reaches_zero_witness :
    trailFadeAlpha ((5 : ℚ) + TRAIL_FADE_TIME + TRAIL_FADE_DURATION) ⟨[], false, 0, 5⟩ = 0 ∧
    0 < trailFadeAlpha 200 ⟨[], false, 0, 5⟩ ∧
    (drawTrail 300 ⟨[], false, 0, 5⟩).state.trailPoints = [] ∧
    (drawTrail 400 ((drawTrail 300 ⟨[], false, 0, 5⟩).state)).state =
      (drawTrail 300 ⟨[], false, 0, 5⟩).state := by
  have h := trail_fade_reaches_zero ⟨[], false, 0, 5⟩ rfl (by norm_num)
  refine ⟨h.1, ?_, ?_, ?_⟩
  · exact h.2.1 200 (by norm_num [TRAIL_FADE_TIME, TRAIL_FADE_DURATION])
  · exact (h.2.2.1 300 (by norm_num [TRAIL_FADE_TIME, TRAIL_FADE_DURATION])).1
  · exact (h.2.2.2 300 400 (by norm_num [TRAIL_FADE_TIME, TRAIL_FADE_DURATION])).1

/-! ### Characterizing one pointer-move event -/

/-- The visibility filter (`alpha >= 0.3`) as applied at the top of
`onPointerMove`. -/
def moveVisible (σ : MoveState) : List TargetModel :=
  σ.targets.filter (fun t => decide ((0.3 : ℚ) ≤ t.alpha))

/-- The broad-phase survivors for the segment from `(px, py)` to `(cx, cy)`. -/
def moveNearby (px py cx cy : ℚ) (σ : MoveState) : List TargetModel :=
  (moveVisible σ).filter (fun t => broadPass px py cx cy t.bounds)

/-- The sample/target pairs the second revision's narrow phase visits. -/
def movePairsV2 (dpr dist px py cx cy : ℚ) (σ : MoveState) :
    List ((ℚ × ℚ) × TargetModel) :=
  pairList (interpSamples px py (cx - px) (cy - py) ((⌈dist / (4 * dpr)⌉).toNat))
    (moveNearby px py cx cy σ)

/-- The sample/target pairs the first revision's narrow phase visits
(`stepSize = 2`, no broad phase). -/
def movePairsV1 (dist px py cx cy : ℚ) (σ : MoveState) :
    List ((ℚ × ℚ) × TargetModel) :=
  pairList (interpSamples px py (cx - px) (cy - py) ((⌈dist / 2⌉).toNat))
    (moveVisible σ)

theorem pairList_nil_right (samples : List (ℚ × ℚ)) : pairList samples [] = [] := by
  simp [pairList]

theorem firstShake_length_le_one (dx dy : ℚ) (pairs : List ((ℚ × ℚ) × TargetModel)) :
    (firstShake dx dy pairs).length ≤ 1 := by
  unfold firstShake
  cases (pairs.filter pairQual).head? <;> simp

theorem onPointerMoveV2_some (dpr dist px py cx cy : ℚ) (σ : MoveState) :
    onPointerMoveV2 dpr (some (px, py)) (cx, cy) dist σ =
      if (moveVisible σ).isEmpty then (σ, [])
      else if (moveNearby px py cx cy σ).isEmpty then
        ({ σ with currentSlashLength := σ.currentSlashLength + dist }, [])
      else
        ({ σ with
            currentSlashLength := σ.currentSlashLength + dist
            hitTargets := hitsFold (movePairsV2 dpr dist px py cx cy σ) σ.hitTargets
            hasHitTarget := σ.hasHitTarget || (movePairsV2 dpr dist px py cx cy σ).any pairQual },
         pairEffects dpr (cx - px) (cy - py) dist false (movePairsV2 dpr dist px py cx cy σ)) := by
  simp only [onPointerMoveV2, moveVisible, moveNearby, movePairsV2]
  by_cases hv : (σ.targets.filter (fun t => decide ((0.3 : ℚ) ≤ t.alpha))).isEmpty = true
  · rw [if_pos hv, if_pos hv]
  · rw [if_neg hv, if_neg hv]
    by_cases hn : ((σ.targets.filter (fun t => decide ((0.3 : ℚ) ≤ t.alpha))).filter
        (fun t => broadPass px py cx cy t.bounds)).isEmpty = true
    · rw [if_pos hn, if_pos hn]
    · rw [if_neg hn, if_neg hn]
      rw [runPairs_spec]
      simp only [Bool.false_or, List.nil_append]

theorem onPointerMoveV1_some (dpr dist px py cx cy : ℚ) (σ : MoveState) :
    onPointerMoveV1 dpr (some (px, py)) (cx, cy) dist σ =
      if (moveVisible σ).isEmpty then (σ, [])
      else
        ({ σ with
            currentSlashLength := σ.currentSlashLength + dist
            hitTargets := hitsFold (movePairsV1 dist px py cx cy σ) σ.hitTargets
            hasHitTarget := σ.hasHitTarget || (movePairsV1 dist px py cx cy σ).any pairQual },
         pairEffects dpr (cx - px) (cy - py) dist false (movePairsV1 dist px py cx cy σ)) := by
  simp only [onPointerMoveV1, moveVisible, movePairsV1]
  by_cases hv : (σ.targets.filter (fun t => decide ((0.3 : ℚ) ≤ t.alpha))).isEmpty = true
  · rw [if_pos hv, if_pos hv]
  · rw [if_neg hv, if_neg hv]
    rw [runPairs_spec]
    simp only [Bool.false_or, List.nil_append]

theorem movePairsV2_visible_empty (dpr dist px py cx cy : ℚ) (σ : MoveState)
    (hv : (moveVisible σ).isEmpty = true) :
    movePairsV2 dpr dist px py cx cy σ = [] := by
  have h0 : moveVisible σ = [] := List.isEmpty_iff.mp hv
  simp [movePairsV2, moveNearby, h0, pairList_nil_right]

theorem movePairsV2_nearby_empty (dpr dist px py cx cy : ℚ) (σ : MoveState)
    (hn : (moveNearby px py cx cy σ).isEmpty = true) :
    movePairsV2 dpr dist px py cx cy σ = [] := by
  simp [movePairsV2, List.isEmpty_iff.mp hn, pairList_nil_right]

/-- C4: in one pointer-move event of the second revision, the hit sound plays
at most once and the shake fires at most once (hence at most once per
target-move pair); the shake, when it occurs, is exactly the one attached to
the first qualifying sample/target pair (with the movement delta `Δ`), and it
never repeats for later qualifying samples of the same event; meanwhile the
span search and the `SlashMark` emission run once per qualifying
sample/target pair of the event. -/
theorem one_shot_side_effects_per_move (dpr dist px py cx cy : ℚ) (σ : MoveState) :
    ((onPointerMoveV2 dpr (some (px, py)) (cx, cy) dist σ).2.filter isClankE).length ≤ 1 ∧
    ((onPointerMoveV2 dpr (some (px, py)) (cx, cy) dist σ).2.filter isShakeE).length ≤ 1 ∧
    (onPointerMoveV2 dpr (some (px, py)) (cx, cy) dist σ).2.filter isShakeE =
      firstShake (cx - px) (cy - py) (movePairsV2 dpr dist px py cx cy σ) ∧
    ((onPointerMoveV2 dpr (some (px, py)) (cx, cy) dist σ).2.filter isSlashMarkE).length =
      ((movePairsV2 dpr dist px py cx cy σ).filter pairQual).length ∧
    ((onPointerMoveV2 dpr (some (px, py)) (cx, cy) dist σ).2.filter isSpanSearchE).length =
      ((movePairsV2 dpr dist px py cx cy σ).filter pairQual).length := by
  rw [onPointerMoveV2_some]
  by_cases hv : (moveVisible σ).isEmpty = true
  · have hmp := movePairsV2_visible_empty dpr dist px py cx cy σ hv
    simp [hv, hmp, firstShake]
  · have hv' : (moveVisible σ).isEmpty = false := by simpa using hv
    by_cases hn : (moveNearby px py cx cy σ).isEmpty = true
    · have hmp := movePairsV2_nearby_empty dpr dist px py cx cy σ hn
      simp [hv', hn, hmp, firstShake]
    · have hn' : (moveNearby px py cx cy σ).isEmpty = false := by simpa using hn
      simp only [hv', hn', Bool.false_eq_true, if_false, ite_false]
      rw [pairEffects_filter_clank, pairEffects_filter_shake, pairEffects_filter_mark,
        pairEffects_filter_span]
      refine ⟨?_, ?_, ?_, ?_, ?_⟩
      · by_cases ha : (movePairsV2 dpr dist px py cx cy σ).any pairQual = true <;> simp [ha]
      · rw [if_neg (by simp)]
        exact firstShake_length_le_one _ _ _
      · rw [if_neg (by simp)]
      · simp
      · simp

/-! ### C5: segment interpolation -/

/-- C5: with segment length `d ≥ 0` and step size `s > 0`, the interpolation
loop visits exactly `⌈d / s⌉ + 1` sample points (`steps = ⌈d / s⌉` is
non-negative, so its `toNat` embedding is exact), and for `steps > 0` the
`i`-th sample is exactly `prev + (i / steps) · Δ`, a point of the segment
(`0 ≤ i / steps ≤ 1`). -/
theorem interp_sampling_spec (px py qx qy d s : ℚ) (hd : 0 ≤ d) (hs : 0 < s) :
    (((⌈d / s⌉).toNat : ℤ) = ⌈d / s⌉) ∧
    (interpSamples px py (qx - px) (qy - py) ((⌈d / s⌉).toNat)).length = (⌈d / s⌉).toNat + 1 ∧
    (∀ i : ℕ, i ≤ (⌈d / s⌉).toNat → 0 < (⌈d / s⌉).toNat →
      (interpSamples px py (qx - px) (qy - py) ((⌈d / s⌉).toNat)).getD i (0, 0) =
        (px + (qx - px) * ((i : ℚ) / (((⌈d / s⌉).toNat : ℕ) : ℚ)),
         py + (qy - py) * ((i : ℚ) / (((⌈d / s⌉).toNat : ℕ) : ℚ))) ∧
      0 ≤ (i : ℚ) / (((⌈d / s⌉).toNat : ℕ) : ℚ) ∧
      (i : ℚ) / (((⌈d / s⌉).toNat : ℕ) : ℚ) ≤ 1) := by
  refine ⟨?_, interpSamples_length px py (qx - px) (qy - py) _, ?_⟩
  · exact Int.toNat_of_nonneg (Int.ceil_nonneg (div_nonneg hd hs.le))
  · intro i hi hpos
    have hcast : (0 : ℚ) < (((⌈d / s⌉).toNat : ℕ) : ℚ) := by
      exact_mod_cast hpos
    refine ⟨?_, ?_, ?_⟩
    · rw [interpSamples_getD px py (qx - px) (qy - py) _ i hi]
      unfold samplePoint
      rw [if_pos hpos]
    · exact div_nonneg (Nat.cast_nonneg i) hcast.le
    · rw [div_le_one hcast]
      exact_mod_cast hi

/-- C5 witness: `d = 5`, `s = 2` gives `⌈5/2⌉ + 1 = 4` samples, and the
sample at `i = 1` sits at parameter `1/3` of the segment. -/
theorem interp_sampling_spec_witness :
    (interpSamples 10 10 (13 - 10) (14 - 10) ((⌈(5 : ℚ) / 2⌉).toNat)).length =
      (⌈(5 : ℚ) / 2⌉).toNat + 1 ∧
    (interpSamples 10 10 (13 - 10) (14 - 10) ((⌈(5 : ℚ) / 2⌉).toNat)).getD 1 (0, 0) =
      (10 + (13 - 10) * ((1 : ℚ) / (((⌈(5 : ℚ) / 2⌉).toNat : ℕ) : ℚ)),
       10 + (14 - 10) * ((1 : ℚ) / (((⌈(5 : ℚ) / 2⌉).toNat : ℕ) : ℚ))) := by
  have hceil : ⌈(5 : ℚ) / 2⌉ = 3 := by norm_num [Int.ceil_eq_iff]
  have h := interp_sampling_spec 10 10 13 14 5 2 (by norm_num) (by norm_num)
  refine ⟨h.2.1, (h.2.2 1 (by rw [hceil]; norm_num) (by rw [hceil]; norm_num)).1⟩

/-! ### C10: broad-phase soundness -/

/-- C10: if a visible target's bounding box contains any interpolation sample
of the segment, the target passes the broad phase: its box cannot lie outside
the segment's axis-aligned bounding box expanded by the 50-pixel margin, and
the target therefore survives both the visibility filter and the broad-phase
filter that feed the narrow phase. -/
theorem broad_phase_never_rejects_hit (px py cx cy : ℚ) (b : Rect) (steps i : ℕ)
    (hi : i ≤ steps)
    (hc : b.contains (samplePoint px py (cx - px) (cy - py) steps i).1
        (samplePoint px py (cx - px) (cy - py) steps i).2 = true) :
    broadPass px py cx cy b = true ∧
    (∀ (ts : List TargetModel) (t : TargetModel), t ∈ ts → t.bounds = b →
      decide ((0.3 : ℚ) ≤ t.alpha) = true →
      t ∈ (ts.filter (fun u => decide ((0.3 : ℚ) ≤ u.alpha))).filter
            (fun u => broadPass px py cx cy u.bounds)) := by
  set t0 : ℚ := if 0 < steps then (i : ℚ) / (steps : ℚ) else 1 with ht0def
  have ht0 : 0 ≤ t0 := by
    rw [ht0def]
    by_cases hst : 0 < steps
    · rw [if_pos hst]
      exact div_nonneg (Nat.cast_nonneg i) (Nat.cast_nonneg steps)
    · rw [if_neg hst]
      norm_num
  have ht1 : t0 ≤ 1 := by
    rw [ht0def]
    by_cases hst : 0 < steps
    · rw [if_pos hst]
      rw [div_le_one (by exact_mod_cast hst)]
      exact_mod_cast hi
    · rw [if_neg hst]
  have hX : (samplePoint px py (cx - px) (cy - py) steps i).1 = px + (cx - px) * t0 := rfl
  have hY : (samplePoint px py (cx - px) (cy - py) steps i).2 = py + (cy - py) * t0 := rfl
  rw [hX, hY] at hc
  unfold Rect.contains at hc
  by_cases hdeg : b.width ≤ 0 ∨ b.height ≤ 0
  · rw [if_pos hdeg] at hc
    cases hc
  · rw [if_neg hdeg] at hc
    have hc' := of_decide_eq_true hc
    obtain ⟨hx1, hx2, hy1, hy2⟩ := hc'
    have hminX : min px cx ≤ px + (cx - px) * t0 := by
      rcases le_total px cx with h | h
      · rw [min_eq_left h]
        nlinarith [mul_nonneg (sub_nonneg.mpr h) ht0]
      · rw [min_eq_right h]
        nlinarith [mul_nonneg (sub_nonneg.mpr h) (sub_nonneg.mpr ht1)]
    have hmaxX : px + (cx - px) * t0 ≤ max px cx := by
      rcases le_total px cx with h | h
      · rw [max_eq_right h]
        nlinarith [mul_nonneg (sub_nonneg.mpr h) (sub_nonneg.mpr ht1)]
      · rw [max_eq_left h]
        nlinarith [mul_nonneg (sub_nonneg.mpr h) ht0]
    have hminY : min py cy ≤ py + (cy - py) * t0 := by
      rcases le_total py cy with h | h
      · rw [min_eq_left h]
        nlinarith [mul_nonneg (sub_nonneg.mpr h) ht0]
      · rw [min_eq_right h]
        nlinarith [mul_nonneg (sub_nonneg.mpr h) (sub_nonneg.mpr ht1)]
    have hmaxY : py + (cy - py) * t0 ≤ max py cy := by
      rcases le_total py cy with h | h
      · rw [max_eq_right h]
        nlinarith [mul_nonneg (sub_nonneg.mpr h) (sub_nonneg.mpr ht1)]
      · rw [max_eq_left h]
        nlinarith [mul_nonneg (sub_nonneg.mpr h) ht0]
    have hpass : broadPass px py cx cy b = true := by
      unfold broadPass Rect.right Rect.leftEdge Rect.topEdge Rect.bottom
      simp only [Bool.not_eq_eq_eq_not, Bool.not_false, Bool.or_eq_false_iff,
        decide_eq_false_iff_not, not_lt, Bool.not_true]
      refine ⟨⟨⟨?_, ?_⟩, ?_⟩, ?_⟩ <;> linarith
    refine ⟨hpass, ?_⟩
    intro ts t hmem hb hα
    rw [List.mem_filter, List.mem_filter]
    exact ⟨⟨hmem, hα⟩, by rw [hb]; exact hpass⟩

/-- C10 witness: the sample at `i = 1` of the segment `(10,10) → (13,14)`
with 2 steps lies inside the box at origin with side 100, and that box passes
the broad phase; a visible target with that box survives both filters. -/
theorem broad_phase_never_rejects_hit_witness :
    broadPass 10 10 13 14 ⟨0, 0, 100, 100⟩ = true ∧
    (⟨7, ⟨0, 0, 100, 100⟩, 1, fun _ _ => true, 60⟩ : TargetModel) ∈
      (([(⟨7, ⟨0, 0, 100, 100⟩, 1, fun _ _ => true, 60⟩ : TargetModel)]).filter
          (fun u => decide ((0.3 : ℚ) ≤ u.alpha))).filter
        (fun u => broadPass 10 10 13 14 u.bounds) := by
  have h := broad_phase_never_rejects_hit 10 10 13 14 ⟨0, 0, 100, 100⟩ 2 1
    (by norm_num)
    (by
      unfold samplePoint Rect.contains
      norm_num)
  exact ⟨h.1, h.2 _ _ (List.mem_singleton.mpr rfl) rfl
    (by simp only [decide_eq_true_eq]; norm_num)⟩

/-! ### C8: zero-length movement deltas -/

theorem mem_pairList {samples : List (ℚ × ℚ)} {nearby : List TargetModel}
    {p : (ℚ × ℚ) × TargetModel} (hp : p ∈ pairList samples nearby) :
    p.1 ∈ samples ∧ p.2 ∈ nearby := by
  simp only [pairList, List.mem_flatMap, List.mem_map] at hp
  obtain ⟨c, hc, t, ht, rfl⟩ := hp
  exact ⟨hc, ht⟩

theorem mem_interpSamples_zero (px py : ℚ) (steps : ℕ) (c : ℚ × ℚ)
    (hc : c ∈ interpSamples px py 0 0 steps) : c = (px, py) := by
  simp only [interpSamples, List.mem_map] at hc
  obtain ⟨i, _, rfl⟩ := hc
  exact samplePoint_zero_delta px py steps i

theorem spanOf_zero (dpr : ℚ) (t : TargetModel) (cX cY : ℚ) :
    spanOf dpr 0 0 0 t cX cY = ((cX, cY), (cX, cY)) := by
  unfold spanOf
  simp only [normalizeDir, lt_self_iff_false, if_false, ite_false]
  have h1 := spanGo_zero t.isPixelHit (cX - t.bounds.centerX) (cY - t.bounds.centerY)
    dpr t.bounds.centerX t.bounds.centerY (-1) 1
  have h2 := spanGo_zero t.isPixelHit (cX - t.bounds.centerX) (cY - t.bounds.centerY)
    dpr t.bounds.centerX t.bounds.centerY 1 1
  rw [sub_add_cancel, sub_add_cancel] at h1 h2
  rw [h1, h2]

theorem markOf_zero (dpr : ℚ) (t : TargetModel) (cX cY : ℚ) :
    markOf dpr 0 0 0 t cX cY = .slashMark cX cY cX cY := by
  unfold markOf
  rw [spanOf_zero]

/-- C8 (amended): with a zero movement delta the direction normalization is
guarded — the ternary yields the zero direction, no division is evaluated —
and `Target.drawSlashDamage` returns before any direction math; but the span
search is not skipped: it still runs for every qualifying sample and merely
degenerates, so every emitted `SlashMark` of such a move collapses to the
sample point itself. -/
theorem zero_delta_guarded (dpr px py : ℚ) (σ : MoveState) :
    normalizeDir 0 0 0 = (0, 0) ∧
    drawSlashDamageActs 0 0 = false ∧
    (onPointerMoveV2 dpr (some (px, py)) (px, py) 0 σ).2.filter isSlashMarkE =
      ((movePairsV2 dpr 0 px py px py σ).filter pairQual).map
        (fun _ => Effect.slashMark px py px py) := by
  refine ⟨by simp [normalizeDir], by simp [drawSlashDamageActs], ?_⟩
  rw [onPointerMoveV2_some]
  by_cases hv : (moveVisible σ).isEmpty = true
  · simp [hv, movePairsV2_visible_empty dpr 0 px py px py σ hv]
  · have hv' : (moveVisible σ).isEmpty = false := by simpa using hv
    by_cases hn : (moveNearby px py px py σ).isEmpty = true
    · simp [hv', hn, movePairsV2_nearby_empty dpr 0 px py px py σ hn]
    · have hn' : (moveNearby px py px py σ).isEmpty = false := by simpa using hn
      simp only [hv', hn', Bool.false_eq_true, if_false, ite_false]
      rw [pairEffects_filter_mark]
      apply List.map_congr_left
      intro p hp
      have hp' : p ∈ movePairsV2 dpr 0 px py px py σ := List.mem_of_mem_filter hp
      have hsample : p.1 ∈ interpSamples px py (px - px) (py - py)
          ((⌈(0 : ℚ) / (4 * dpr)⌉).toNat) := (mem_pairList hp').1
      rw [sub_self, sub_self] at hsample
      have hxy : p.1 = (px, py) := mem_interpSamples_zero px py _ p.1 hsample
      rw [sub_self, sub_self]
      have h1 : p.1.1 = px := by rw [hxy]
      have h2 : p.1.2 = py := by rw [hxy]
      rw [h1, h2]
      exact markOf_zero dpr p.2 px py

/-- An always-opaque 100×100 target at the origin. -/
def cTarget : TargetModel := ⟨0, ⟨0, 0, 100, 100⟩, 1, fun _ _ => true, 60⟩

/-- C8 counterexample: a pointer-move whose delta is the zero vector (previous
point = current point = `(10, 10)`, so `distance = 0`) over an opaque target
still executes the span search — the resolver does not skip it, contrary to
the claim; the search merely runs with the guarded zero direction. -/
theorem zero_delta_span_search_runs :
    ((onPointerMoveV2 1 (some (10, 10)) (10, 10) 0
        ⟨[cTarget], [], false, 0⟩).2.filter isSpanSearchE).length = 1 := by
  have hα : decide ((0.3 : ℚ) ≤ cTarget.alpha) = true := by
    simp only [cTarget, decide_eq_true_eq]
    norm_num
  have hvis : moveVisible ⟨[cTarget], [], false, 0⟩ = [cTarget] := by
    simp [moveVisible, hα]
  have hb : broadPass 10 10 10 10 cTarget.bounds = true := by
    simp only [cTarget, broadPass, Rect.right, Rect.leftEdge, Rect.topEdge, Rect.bottom]
    norm_num
  have hnear : moveNearby 10 10 10 10 ⟨[cTarget], [], false, 0⟩ = [cTarget] := by
    simp [moveNearby, hvis, hb]
  have hsteps : ((⌈(0 : ℚ) / (4 * 1)⌉).toNat) = 0 := by norm_num
  have hsamples : interpSamples 10 10 (10 - 10) (10 - 10) 0 = [(10, 10)] := by
    have hr1 : List.range 1 = [0] := rfl
    simp [interpSamples, hr1, samplePoint]
  have hpairs : movePairsV2 1 0 10 10 10 10 ⟨[cTarget], [], false, 0⟩ = [((10, 10), cTarget)] := by
    unfold movePairsV2
    rw [hnear, hsteps, hsamples]
    simp [pairList]
  have hq : pairQual ((10, 10), cTarget) = true := by
    simp only [pairQual, qualifies, cTarget, Rect.contains, Rect.centerX, Rect.centerY]
    norm_num
  have hvE : (moveVisible ⟨[cTarget], [], false, 0⟩).isEmpty = false := by
    rw [hvis]; rfl
  have hnE : (moveNearby 10 10 10 10 ⟨[cTarget], [], false, 0⟩).isEmpty = false := by
    rw [hnear]; rfl
  rw [onPointerMoveV2_some]
  simp only [hvE, hnE, Bool.false_eq_true, if_false, ite_false]
  rw [pairEffects_filter_span, hpairs]
  simp [hq]

/-! ### C1: exactly one takeDamage per touched target -/

theorem singleStep_nodup (cx cy : ℚ) (t : TargetModel) (acc : MoveState × List Effect)
    (h : acc.1.hitTargets.Nodup) : ((singleStep cx cy t acc).1).hitTargets.Nodup := by
  unfold singleStep
  by_cases h1 : t.bounds.contains cx cy = true
  · by_cases h2 : t.isPixelHit (cx - t.bounds.centerX) (cy - t.bounds.centerY) = true
    · rw [if_pos h1, if_pos h2]
      exact nodup_addHit h
    · rw [if_pos h1, if_neg h2]
      exact h
  · rw [if_neg h1]
    exact h

theorem singlePointPass_nodup (cx cy : ℚ) (visible : List TargetModel) :
    ∀ acc : MoveState × List Effect, acc.1.hitTargets.Nodup →
      ((visible.foldl (fun acc t => singleStep cx cy t acc) acc).1).hitTargets.Nodup := by
  induction visible with
  | nil => intro acc h; simpa using h
  | cons t rest ih =>
      intro acc h
      have step : (t :: rest).foldl (fun acc t => singleStep cx cy t acc) acc =
          rest.foldl (fun acc t => singleStep cx cy t acc) (singleStep cx cy t acc) := by
        simp
      rw [step]
      exact ih _ (singleStep_nodup cx cy t acc h)

theorem onPointerMoveV1_nodup (dpr dist : ℚ) (prev : Option (ℚ × ℚ)) (cur : ℚ × ℚ)
    (σ : MoveState) (h : σ.hitTargets.Nodup) :
    ((onPointerMoveV1 dpr prev cur dist σ).1).hitTargets.Nodup := by
  cases prev with
  | some p =>
      obtain ⟨px, py⟩ := p
      obtain ⟨cx, cy⟩ := cur
      rw [onPointerMoveV1_some]
      by_cases hv : (moveVisible σ).isEmpty = true
      · rw [if_pos hv]
        exact h
      · rw [if_neg hv]
        exact nodup_hitsFold _ _ h
  | none =>
      unfold onPointerMoveV1
      by_cases hv : (σ.targets.filter (fun t => decide ((0.3 : ℚ) ≤ t.alpha))).isEmpty = true
      · rw [if_pos hv]
        exact h
      · rw [if_neg hv]
        exact singlePointPass_nodup cur.1 cur.2 _ (σ, []) h

theorem runMoves_nodup (dpr : ℚ) (mvs : List GestureMove) :
    ∀ σ : MoveState, σ.hitTargets.Nodup → ((runMoves dpr σ mvs).hitTargets).Nodup := by
  induction mvs with
  | nil => intro σ h; simpa [runMoves] using h
  | cons m rest ih =>
      intro σ h
      have step : runMoves dpr σ (m :: rest) =
          runMoves dpr ((onPointerMoveV1 dpr m.prev m.cur m.dist σ).1) rest := by
        simp [runMoves]
      rw [step]
      exact ih _ (onPointerMoveV1_nodup dpr m.dist m.prev m.cur σ h)

theorem onPointerUpV1_eq (dpr : ℚ) (σ : MoveState) :
    onPointerUpV1 dpr σ =
      σ.hitTargets.map (fun tid => (tid, computeDamage dpr σ.currentSlashLength)) := by
  unfold onPointerUpV1
  by_cases h : σ.hitTargets.isEmpty = true
  · rw [if_pos h, List.isEmpty_iff.mp h]
    rfl
  · rw [if_neg h]

/-- C1: over any gesture (pointer-down, any sequence of pointer-moves,
pointer-up), the release pass of the first revision issues exactly the list
of `takeDamage` calls obtained by pairing each touched target once with the
single computed damage; hence every target in the touched set receives
exactly one `takeDamage` call (no matter how many samples or move events hit
it), a target never touched receives none, and all calls carry the same
damage value. -/
theorem damage_applied_once_per_touched (dpr : ℚ) (targets : List TargetModel)
    (mvs : List GestureMove) :
    onPointerUpV1 dpr (runMoves dpr (pointerDownState targets) mvs) =
      (runMoves dpr (pointerDownState targets) mvs).hitTargets.map
        (fun tid => (tid, computeDamage dpr
          (runMoves dpr (pointerDownState targets) mvs).currentSlashLength)) ∧
    ∀ tid : ℕ,
      ((onPointerUpV1 dpr (runMoves dpr (pointerDownState targets) mvs)).map Prod.fst).count tid =
        if tid ∈ (runMoves dpr (pointerDownState targets) mvs).hitTargets then 1 else 0 := by
  refine ⟨onPointerUpV1_eq dpr _, ?_⟩
  intro tid
  have hnodup : ((runMoves dpr (pointerDownState targets) mvs).hitTargets).Nodup :=
    runMoves_nodup dpr mvs (pointerDownState targets) (by simp [pointerDownState])
  rw [onPointerUpV1_eq dpr _]
  have hmap : ((runMoves dpr (pointerDownState targets) mvs).hitTargets.map
      (fun tid => (tid, computeDamage dpr
        (runMoves dpr (pointerDownState targets) mvs).currentSlashLength))).map Prod.fst =
      (runMoves dpr (pointerDownState targets) mvs).hitTargets := by
    rw [List.map_map]
    have hcomp : (Prod.fst ∘ fun tid : ℕ => (tid, computeDamage dpr
        (runMoves dpr (pointerDownState targets) mvs).currentSlashLength)) = id := rfl
    rw [hcomp, List.map_id]
  rw [hmap]
  by_cases hmem : tid ∈ (runMoves dpr (pointerDownState targets) mvs).hitTargets
  · rw [if_pos hmem]
    exact List.count_eq_one_of_mem hnodup hmem
  · rw [if_neg hmem]
    exact List.count_eq_zero.mpr hmem

/-! ### C2: the damage formula -/

/-- C2: at release with at least one touched target, every issued
`takeDamage` call carries `min(50 + (len / (300·dpr))·50, 100)`; that damage
is monotonically non-decreasing in the accumulated length, always lies in
`[50, 100]` for a non-negative length, and equals exactly `100` at the
full-bonus length `300·dpr`. -/
theorem damage_formula_spec (dpr len len2 : ℚ) (σ : MoveState)
    (hdpr : 0 < dpr) (hlen : 0 ≤ len) (hσ : σ.currentSlashLength = len) :
    computeDamage dpr len = min (50 + len / (300 * dpr) * 50) 100 ∧
    onPointerUpV1 dpr σ =
      σ.hitTargets.map (fun tid => (tid, min (50 + len / (300 * dpr) * 50) 100)) ∧
    50 ≤ computeDamage dpr len ∧
    computeDamage dpr len ≤ 100 ∧
    (len ≤ len2 → computeDamage dpr len ≤ computeDamage dpr len2) ∧
    computeDamage dpr (300 * dpr) = 100 := by
  have h300 : (0 : ℚ) < 300 * dpr := by positivity
  refine ⟨rfl, ?_, ?_, ?_, ?_, ?_⟩
  · rw [onPointerUpV1_eq, hσ]
    rfl
  · unfold computeDamage
    have hq : 0 ≤ len / (300 * dpr) * 50 := by positivity
    exact le_min (by linarith) (by norm_num)
  · exact min_le_right _ _
  · intro hle
    unfold computeDamage
    have hdiv : len / (300 * dpr) ≤ len2 / (300 * dpr) := by gcongr
    exact min_le_min (by linarith) le_rfl
  · unfold computeDamage
    rw [div_self (ne_of_gt h300)]
    norm_num

/-- C2 witness: `dpr = 1`, zero length, one touched target: damage is 50,
within bounds, below the damage of a longer slash, and the full-bonus length
yields exactly 100. -/
theorem damage_formula_spec_witness :
    computeDamage 1 0 = min (50 + 0 / (300 * 1) * 50) 100 ∧
    onPointerUpV1 1 ⟨[], [5], false, 0⟩ =
      [(5, min (50 + 0 / (300 * 1) * 50) 100)] ∧
    50 ≤ computeDamage 1 0 ∧
    computeDamage 1 0 ≤ 100 ∧
    computeDamage 1 0 ≤ computeDamage 1 7 ∧
    computeDamage 1 (300 * 1) = 100 := by
  have h := damage_formula_spec 1 0 7 ⟨[], [5], false, 0⟩ (by norm_num) (by norm_num) rfl
  exact ⟨h.1, by rw [h.2.1]; rfl, h.2.2.1, h.2.2.2.1, h.2.2.2.2.1 (by norm_num), h.2.2.2.2.2⟩

/-! ### C3: death outcome at gesture resolution (second revision) -/

theorem find?_of_nodup_ids (targets : List TargetModel) (t : TargetModel) (tid : ℕ)
    (hids : (targets.map TargetModel.id).Nodup) (ht : t ∈ targets) (hid : t.id = tid) :
    targets.find? (fun u => u.id == tid) = some t := by
  induction targets with
  | nil => cases ht
  | cons u rest ih =>
      simp only [List.map_cons, List.nodup_cons] at hids
      obtain ⟨hu, hrest⟩ := hids
      by_cases hcase : (u.id == tid) = true
      · have huid : u.id = tid := by simpa using hcase
        rcases List.mem_cons.mp ht with rfl | hmem
        · rw [List.find?_cons, hcase]
        · exfalso
          apply hu
          rw [huid, ← hid]
          exact List.mem_map_of_mem TargetModel.id hmem
      · have hcase' : (u.id == tid) = false := by simpa using hcase
        have htr : t ∈ rest := by
          rcases List.mem_cons.mp ht with rfl | hmem
          · exact absurd (by simpa using hid) hcase
          · exact hmem
        rw [List.find?_cons, hcase']
        exact ih hrest htr

theorem ids_eraseP_not_mem (targets : List TargetModel) (tid : ℕ)
    (hids : (targets.map TargetModel.id).Nodup) :
    tid ∉ (targets.eraseP (fun u => u.id == tid)).map TargetModel.id := by
  induction targets with
  | nil => simp
  | cons u rest ih =>
      simp only [List.map_cons, List.nodup_cons] at hids
      obtain ⟨hu, hrest⟩ := hids
      by_cases hcase : (u.id == tid) = true
      · rw [@List.eraseP_cons_of_pos TargetModel u rest (fun u => u.id == tid) hcase]
        have huid : u.id = tid := by simpa using hcase
        rw [← huid]
        exact hu
      · rw [@List.eraseP_cons_of_neg TargetModel u rest (fun u => u.id == tid) hcase]
        simp only [List.map_cons, List.mem_cons, not_or]
        refine ⟨?_, ih hrest⟩
        intro heq
        rw [heq] at hcase
        simp at hcase

theorem ids_map_update (targets : List TargetModel) (a : ℕ) (hp' : ℚ) :
    (targets.map (fun u => if u.id == a then { u with hp := hp' } else u)).map
        TargetModel.id = targets.map TargetModel.id := by
  rw [List.map_map]
  apply List.map_congr_left
  intro u _
  by_cases h : (u.id == a) = true <;> simp [h, Function.comp]

theorem upStep_none (damage : ℚ) (st : UpState) (tid' : ℕ)
    (h : st.targets.find? (fun u => u.id == tid') = none) :
    upStep damage st tid' = st := by
  unfold upStep
  rw [h]

theorem upStep_dead (damage : ℚ) (st : UpState) (tid' : ℕ) (u : TargetModel)
    (h : st.targets.find? (fun v => v.id == tid') = some u)
    (hd : isDeadQ (takeDamageQ u.hp damage) = true) :
    upStep damage st tid' =
      { targets := st.targets.eraseP (fun v => v.id == tid')
        damaged := st.damaged ++ [(tid', damage)]
        killed := st.killed ++ [tid'] } := by
  unfold upStep
  simp only [h]
  rw [if_pos hd]

theorem upStep_alive (damage : ℚ) (st : UpState) (tid' : ℕ) (u : TargetModel)
    (h : st.targets.find? (fun v => v.id == tid') = some u)
    (hd : ¬(isDeadQ (takeDamageQ u.hp damage) = true)) :
    upStep damage st tid' =
      { targets := st.targets.map
          (fun v => if v.id == tid' then { v with hp := takeDamageQ u.hp damage } else v)
        damaged := st.damaged ++ [(tid', damage)]
        killed := st.killed } := by
  unfold upStep
  simp only [h]
  rw [if_neg hd]

theorem upStep_other (damage : ℚ) (st : UpState) (tid a : ℕ) (hne : a ≠ tid) :
    ((upStep damage st a).killed.count tid = st.killed.count tid) ∧
    (tid ∉ st.targets.map TargetModel.id →
      tid ∉ (upStep damage st a).targets.map TargetModel.id) ∧
    ((st.targets.map TargetModel.id).Nodup →
      ((upStep damage st a).targets.map TargetModel.id).Nodup) ∧
    (∀ t : TargetModel, t ∈ st.targets → t.id = tid →
      t ∈ (upStep damage st a).targets) := by
  cases hf : st.targets.find? (fun u => u.id == a) with
  | none =>
      rw [upStep_none damage st a hf]
      exact ⟨rfl, fun h => h, fun h => h, fun t ht _ => ht⟩
  | some u =>
      by_cases hdead : isDeadQ (takeDamageQ u.hp damage) = true
      · rw [upStep_dead damage st a u hf hdead]
        refine ⟨?_, ?_, ?_, ?_⟩
        · rw [List.count_append]
          have hz : List.count tid [a] = 0 := List.count_eq_zero.mpr (by simp [Ne.symm hne])
          rw [hz]
          rfl
        · intro h hmem
          apply h
          have hsub : (st.targets.eraseP (fun u => u.id == a)).Sublist st.targets :=
            List.eraseP_sublist _
          exact (hsub.map TargetModel.id).mem hmem
        · intro h
          have hsub : (st.targets.eraseP (fun u => u.id == a)).Sublist st.targets :=
            List.eraseP_sublist _
          exact (hsub.map TargetModel.id).nodup h
        · intro t ht hid
          have hpred : ¬((fun u : TargetModel => u.id == a) t = true) := by
            simp only [beq_iff_eq]
            rw [hid]
            exact fun hh => hne (hh.symm)
          exact (@List.mem_eraseP_of_neg TargetModel (fun u => u.id == a) t st.targets hpred).mpr ht
      · rw [upStep_alive damage st a u hf hdead]
        refine ⟨rfl, ?_, ?_, ?_⟩
        · intro h
          rw [ids_map_update]
          exact h
        · intro h
          rw [ids_map_update]
          exact h
        · intro t ht hid
          have hself : (if t.id == a then { t with hp := takeDamageQ u.hp damage } else t) = t := by
            rw [if_neg]
            simp only [beq_iff_eq]
            rw [hid]
            exact fun hh => hne (hh.symm)
          rw [← hself]
          exact List.mem_map_of_mem _ ht

theorem upFold_other (damage : ℚ) (l : List ℕ) (tid : ℕ) (hnot : tid ∉ l) :
    ∀ st : UpState,
      ((l.foldl (upStep damage) st).killed.count tid = st.killed.count tid) ∧
      (tid ∉ st.targets.map TargetModel.id →
        tid ∉ (l.foldl (upStep damage) st).targets.map TargetModel.id) := by
  induction l with
  | nil => intro st; exact ⟨rfl, fun h => h⟩
  | cons a rest ih =>
      intro st
      have hne : a ≠ tid := by
        intro hh
        exact hnot (hh ▸ List.mem_cons_self a rest)
      have hnot' : tid ∉ rest := fun hh => hnot (List.mem_cons_of_mem a hh)
      have hstep := upStep_other damage st tid a hne
      have hfold : (a :: rest).foldl (upStep damage) st =
          rest.foldl (upStep damage) (upStep damage st a) := by
        simp
      rw [hfold]
      refine ⟨?_, ?_⟩
      · rw [(ih hnot' (upStep damage st a)).1, hstep.1]
      · intro h
        exact (ih hnot' (upStep damage st a)).2 (hstep.2.1 h)

theorem upFold_kill (damage : ℚ) (l : List ℕ) (tid : ℕ) :
    ∀ (st : UpState) (t : TargetModel),
      l.Nodup → tid ∈ l →
      (st.targets.map TargetModel.id).Nodup →
      t ∈ st.targets → t.id = tid →
      st.killed.count tid = 0 →
      takeDamageQ t.hp damage ≤ 0 →
      ((l.foldl (upStep damage) st).killed.count tid = 1 ∧
       tid ∉ (l.foldl (upStep damage) st).targets.map TargetModel.id) := by
  induction l with
  | nil => intro st t _ hmem; cases hmem
  | cons a rest ih =>
      intro st t hnodup hmem hids ht hid hcount hdead
      simp only [List.nodup_cons] at hnodup
      obtain ⟨hanot, hrestnodup⟩ := hnodup
      have hfold : (a :: rest).foldl (upStep damage) st =
          rest.foldl (upStep damage) (upStep damage st a) := by
        simp
      rw [hfold]
      by_cases hcase : a = tid
      · subst hcase
        have hfind : st.targets.find? (fun u => u.id == a) = some t :=
          find?_of_nodup_ids st.targets t a hids ht hid
        have hdead' : isDeadQ (takeDamageQ t.hp damage) = true := by
          simp only [isDeadQ, decide_eq_true_eq]
          exact hdead
        have hstep : upStep damage st a =
            { targets := st.targets.eraseP (fun u => u.id == a)
              damaged := st.damaged ++ [(a, damage)]
              killed := st.killed ++ [a] } :=
          upStep_dead damage st a t hfind hdead'
        rw [hstep]
        have hother := upFold_other damage rest a hanot
          ⟨st.targets.eraseP (fun u => u.id == a), st.damaged ++ [(a, damage)],
            st.killed ++ [a]⟩
        refine ⟨?_, ?_⟩
        · rw [hother.1]
          simp [List.count_append, hcount]
        · exact hother.2 (ids_eraseP_not_mem st.targets a hids)
      · have hne : a ≠ tid := hcase
        have hmem' : tid ∈ rest := by
          rcases List.mem_cons.mp hmem with rfl | hh
          · exact absurd rfl hne
          · exact hh
        have hstep := upStep_other damage st tid a hne
        exact ih (upStep damage st a) t hrestnodup hmem'
          (hstep.2.2.1 hids) (hstep.2.2.2 t ht hid) hid
          (by rw [hstep.1]; exact hcount) hdead

/-- C3: at the second revision's pointer-up, a touched live target whose hp
reaches ≤ 0 under the applied `takeDamage` (here the one-hit-kill damage
9999) satisfies `isDead`, triggers exactly one `onEnemyKilled` notification,
and is absent from the live-target collection after the resolution pass. -/
theorem death_processed_exactly_once (σ : MoveState) (tid : ℕ) (t : TargetModel)
    (hnodup : σ.hitTargets.Nodup)
    (hids : (σ.targets.map TargetModel.id).Nodup)
    (hmem : tid ∈ σ.hitTargets)
    (ht : t ∈ σ.targets) (hid : t.id = tid)
    (hkill : t.hp ≤ 9999) :
    isDeadQ (takeDamageQ t.hp 9999) = true ∧
    (onPointerUpV2 σ).killed.count tid = 1 ∧
    tid ∉ (onPointerUpV2 σ).targets.map TargetModel.id := by
  have hdead : takeDamageQ t.hp 9999 ≤ 0 := by
    unfold takeDamageQ
    exact max_le le_rfl (by linarith)
  have hne : ¬(σ.hitTargets.isEmpty = true) := by
    intro hh
    rw [List.isEmpty_iff.mp hh] at hmem
    cases hmem
  have hfold := upFold_kill 9999 σ.hitTargets tid ⟨σ.targets, [], []⟩ t
    hnodup hmem hids ht hid (by simp) hdead
  refine ⟨by simp [isDeadQ, hdead], ?_, ?_⟩
  · unfold onPointerUpV2
    rw [if_neg hne]
    exact hfold.1
  · unfold onPointerUpV2
    rw [if_neg hne]
    exact hfold.2

/-- C3 witness: a single touched target with 50 hp: dead after the applied
damage, one kill notification, gone from the live collection. -/
theorem death_processed_exactly_once_witness :
    isDeadQ (takeDamageQ 50 9999) = true ∧
    (onPointerUpV2 ⟨[⟨0, ⟨0, 0, 10, 10⟩, 1, fun _ _ => true, 50⟩], [0], false, 0⟩).killed.count 0 = 1 ∧
    0 ∉ (onPointerUpV2 ⟨[⟨0, ⟨0, 0, 10, 10⟩, 1, fun _ _ => true, 50⟩], [0], false, 0⟩).targets.map
        TargetModel.id := by
  exact death_processed_exactly_once
    ⟨[⟨0, ⟨0, 0, 10, 10⟩, 1, fun _ _ => true, 50⟩], [0], false, 0⟩ 0
    ⟨0, ⟨0, 0, 10, 10⟩, 1, fun _ _ => true, 50⟩
    (by simp) (by simp) (by simp) (List.mem_singleton.mpr rfl) rfl (by norm_num)

end SlashLat
